import Mathlib

/-!
# pingpong: the bandwidth benchmark bw.c

A shallow embedding of `src/bw.c` (the length-framed echo server `tcp_client`,
the client transfer primitive `bw_test`, the aggregator `stats` and the
benchmark driver `warmup` / `run_client`) together with the C library calls
they rely on, of the update of the shared byte counter of `src/echod.c`, and
of the aggregators `a_max` / `a_min` of `src/latency.c` and `src/throughput.c`.

Conventions.
* A byte (`char`) is its unsigned code, a natural number below 256; byte
  strings are lists of type `List Nat`.
* A `long` / `ssize_t` is an `Int`; where the C arithmetic can leave the
  64-bit range the result is wrapped with `toLong`.  A `size_t` is a `Nat`
  below `2^64`; the conversion from `long` is `toSizeT`.
* A `char` array is the list of its bytes; a C string inside it ends at the
  first NUL byte.
* The socket, the heap and the clock are the environment: they are a `World`
  whose plans fix what each successive system call returns, and whose trace
  records every call the program makes.
-/

namespace PingPong

/-! ## Machine integers -/

/-- Conversion of an integer to `long` (64-bit two's complement wrap-around). -/
def toLong (x : Int) : Int := (x + 2 ^ 63) % 2 ^ 64 - 2 ^ 63

/-- Conversion of a `long` to `size_t` / `unsigned long`. -/
def toSizeT (x : Int) : Nat := (x % 2 ^ 64).toNat

/-- The constant LONG_MAX. -/
def LONG_MAX : Int := 2 ^ 63 - 1

/-- The constant LONG_MIN. -/
def LONG_MIN : Int := -(2 ^ 63)

/-! ## C library: ctype, strcmp, atol, sprintf -/

/-- The C library `isspace` in the C locale: space, and the codes 9 to 13. -/
def isspace (c : Nat) : Bool := c == 32 || (9 ≤ c && c ≤ 13)

/-- The C library `isdigit`. -/
def isdigit (c : Nat) : Bool := 48 ≤ c && c ≤ 57

/-- The C library `strcmp`: compares two strings byte by byte up to and
including the terminating NUL; the result is the difference of the first two
bytes that differ, 0 when the strings are equal.  Reading past the end of a
list reads a NUL. -/
def strcmp : List Nat → List Nat → Int
  | [], [] => 0
  | [], b :: _ => -(b : Int)
  | a :: _, [] => (a : Int)
  | a :: as, b :: bs =>
    if a = b then (if a = 0 then 0 else strcmp as bs) else (a : Int) - (b : Int)

/-- The digit loop of `atol`: accumulates decimal digits until the first byte
that is not a digit (the terminating NUL at the latest). -/
def atol_digits : List Nat → Int → Int
  | [], acc => acc
  | c :: cs, acc => if isdigit c then atol_digits cs (acc * 10 + ((c : Int) - 48)) else acc

/-- The C library `atol` (as `strtol(s, NULL, 10)` of glibc): skips white
space, takes an optional sign, reads decimal digits, stops at the first other
byte, and clamps the value to the range of `long`.  A text without digits
gives 0. -/
def atol (s : List Nat) : Int :=
  let v : Int :=
    match s.dropWhile isspace with
    | 45 :: cs => -(atol_digits cs 0)
    | 43 :: cs => atol_digits cs 0
    | cs => atol_digits cs 0
  max LONG_MIN (min LONG_MAX v)

/-- Decimal digits of `n`, most significant first, as ASCII codes, put in
front of `acc`; `fuel` bounds the number of digits. -/
def decimal_digits : Nat → Nat → List Nat → List Nat
  | 0, _, acc => acc
  | fuel + 1, n, acc =>
    if n < 10 then (48 + n) :: acc
    else decimal_digits fuel (n / 10) ((48 + n % 10) :: acc)

/-- The bytes `sprintf(buf, "%ld", v)` writes: the decimal text of `v` (with a
leading minus sign when negative) and the terminating NUL. -/
def sprintf_ld (v : Int) : List Nat :=
  (if v < 0 then 45 :: decimal_digits (v.natAbs + 1) v.natAbs []
   else decimal_digits (v.natAbs + 1) v.natAbs []) ++ [0]

/-- Writing `data` at the start of the array `buf`: the array keeps its size,
its first bytes are replaced.  Bytes of `data` beyond the end of the array are
outside the array and are not part of its value. -/
def bufWrite (buf data : List Nat) : List Nat :=
  (data ++ buf.drop data.length).take buf.length

/-- The string literal "CLOSE" with its terminating NUL. -/
def str_CLOSE : List Nat := [67, 76, 79, 83, 69, 0]

/-- The string literal "OK" with its terminating NUL. -/
def str_OK : List Nat := [79, 75, 0]

/-- The string literal "OK      " (OK and six spaces) with its terminating NUL. -/
def str_OK_padded : List Nat := [79, 75, 32, 32, 32, 32, 32, 32, 0]

/-- The string literal "ERR     " (ERR and five spaces) with its terminating NUL. -/
def str_ERR_padded : List Nat := [69, 82, 82, 32, 32, 32, 32, 32, 0]

/-! ## The environment: socket, heap, clock -/

/-- A clock reading, `struct timeval`. -/
structure timeval where
  tv_sec : Int
  tv_usec : Int
  deriving DecidableEq, Repr

/-- The diagnostics the program prints on stderr. -/
inductive Diag
  | recv_failed
  | incomplete_header
  | malloc_failed
  | send_failed
  | incomplete_recv
  | send_bw_failed
  | illegal_response
  | recv_bw_failed
  | incomplete_received
  | warmup_failed
  | error
  deriving DecidableEq, Repr

/-- One observable action of the program. -/
inductive Event
  /-- A call `recv(sock, buf, n, MSG_WAITALL)`, its return value and the bytes delivered. -/
  | recv (n : Nat) (ret : Int) (data : List Nat)
  /-- A call `send(sock, buf, n, flags)` with the `n` bytes of the buffer, and its return value. -/
  | send (buf : List Nat) (ret : Int)
  /-- A call `malloc(size)` and whether it returned a buffer. -/
  | malloc (size : Nat) (ok : Bool)
  /-- A line printed on stderr. -/
  | stderr (d : Diag)
  deriving DecidableEq, Repr

/-- The environment of one socket endpoint.
* `inbox`: the bytes the peer has sent that this side has not read yet; when
  it is empty the peer has shut the connection down.
* `recvPlan`, `sendPlan`, `mallocPlan`: what the successive calls of `recv`,
  `send` and `malloc` do: `none` is a failure (return value -1, or NULL for
  `false`), `some k` limits the call to `k` bytes.  A call made after its plan
  is used up is served in full.
* `clock`: the successive readings of `gettimeofday`; `now` is the last one.
* `trace`: every action made so far, oldest first. -/
structure World where
  inbox : List Nat
  recvPlan : List (Option Nat)
  sendPlan : List (Option Nat)
  mallocPlan : List Bool
  clock : List timeval
  now : timeval
  trace : List Event
  deriving DecidableEq, Repr

/-- A world in which every call is served in full: the peer has sent `inbox`. -/
def World.ideal (inbox : List Nat) : World :=
  ⟨inbox, [], [], [], [], ⟨0, 0⟩, []⟩

/-- Appends an event to the trace. -/
def World.log (w : World) (e : Event) : World := { w with trace := w.trace ++ [e] }

/-- The system call `recv(sock, buf, n, MSG_WAITALL)`: returns -1 on failure,
otherwise the number of bytes delivered, with these bytes. -/
def recv (w : World) (n : Nat) : Int × List Nat × World :=
  match w.recvPlan with
  | none :: plan =>
    (-1, [], { w with recvPlan := plan, trace := w.trace ++ [Event.recv n (-1) []] })
  | some k :: plan =>
    let bs := w.inbox.take (min k n)
    ((bs.length : Int), bs,
      { w with inbox := w.inbox.drop (min k n), recvPlan := plan,
               trace := w.trace ++ [Event.recv n bs.length bs] })
  | [] =>
    let bs := w.inbox.take n
    ((bs.length : Int), bs,
      { w with inbox := w.inbox.drop n, trace := w.trace ++ [Event.recv n bs.length bs] })

/-- The system call `send(sock, buf, n, flags)` on the `n` bytes `buf`:
returns -1 on failure, otherwise the number of bytes accepted. -/
def send (w : World) (buf : List Nat) : Int × World :=
  match w.sendPlan with
  | none :: plan => (-1, { w with sendPlan := plan, trace := w.trace ++ [Event.send buf (-1)] })
  | some k :: plan =>
    ((min k buf.length : Nat),
      { w with sendPlan := plan, trace := w.trace ++ [Event.send buf (min k buf.length : Nat)] })
  | [] => ((buf.length : Int), { w with trace := w.trace ++ [Event.send buf buf.length] })

/-- The call `malloc(size)`: `true` when a buffer is returned, `false` for NULL. -/
def malloc (w : World) (size : Nat) : Bool × World :=
  match w.mallocPlan with
  | ok :: plan => (ok, { w with mallocPlan := plan, trace := w.trace ++ [Event.malloc size ok] })
  | [] => (true, { w with trace := w.trace ++ [Event.malloc size true] })

/-- The call `gettimeofday(&t, NULL)`. -/
def gettimeofday (w : World) : timeval × World :=
  match w.clock with
  | t :: rest => (t, { w with clock := rest, now := t })
  | [] => (w.now, w)

/-- The macro `timersub(a, b, result)` of sys/time.h. -/
def timersub (a b : timeval) : timeval :=
  let sec := a.tv_sec - b.tv_sec
  let usec := a.tv_usec - b.tv_usec
  if usec < 0 then ⟨sec - 1, usec + 1000000⟩ else ⟨sec, usec⟩

/-- The bytes the peer has been sent: the accepted part of every `send`, in order. -/
def sent : List Event → List Nat
  | [] => []
  | Event.send buf ret :: es => (if 0 ≤ ret then buf.take ret.toNat else []) ++ sent es
  | _ :: es => sent es

/-- The sizes of the buffers obtained from `malloc`, in order. -/
def allocated : List Event → List Nat
  | [] => []
  | Event.malloc size true :: es => size :: allocated es
  | _ :: es => allocated es

/-! ## bw.c: the server session handler `tcp_client` -/

/-- How the session loop of `tcp_client` was left: one constructor per `break`. -/
inductive Exit
  /-- Line 133: the header `recv` failed. -/
  | recv_failed
  /-- Line 135: the header `recv` returned 0. -/
  | peer_closed
  /-- Line 138: fewer than 8 header bytes. -/
  | incomplete_header
  /-- Line 142: the header is the CLOSE token. -/
  | close
  /-- Line 153: `malloc` returned NULL. -/
  | malloc_failed
  /-- Line 159: sending the acknowledgement failed. -/
  | send_failed
  /-- Line 165: the payload `recv` failed. -/
  | payload_recv_failed
  /-- Line 173: sending the payload back failed. -/
  | echo_send_failed
  deriving DecidableEq, Repr

/-- Outcome of one pass through the body of the session loop. -/
inductive Iter
  /-- The end of the body was reached: the loop goes on. -/
  | next (w : World)
  /-- A `break` was taken. -/
  | stop (e : Exit) (w : World)
  deriving DecidableEq, Repr

/-- Lines 140 to 144 of `tcp_client`: the header buffer `msg` (8 bytes read
into a zeroed 9-byte array, `msg[8] = 0`) is compared with "CLOSE"; `none` is
the CLOSE branch, otherwise the size is `atol(msg)`. -/
def tcp_client_header (msg : List Nat) : Option Int :=
  if strcmp str_CLOSE msg = 0 then none else some (atol msg)

/-- The body of the `while(true)` loop of `tcp_client` (lines 128 to 177).
The counter `received`, which is never read, and the calls of `free` have no
effect on the socket and are left out. -/
def tcp_client_iter (w : World) : Iter :=
  match recv w 8 with
  | (l_recv, data, w) =>
    let msg := bufWrite (List.replicate 9 0) data
    if l_recv < 0 then Iter.stop Exit.recv_failed (w.log (Event.stderr Diag.recv_failed))
    else if l_recv = 0 then Iter.stop Exit.peer_closed w
    else if l_recv < 8 then
      Iter.stop Exit.incomplete_header (w.log (Event.stderr Diag.incomplete_header))
    else
      let msg := msg.set 8 0
      match tcp_client_header msg with
      | none => Iter.stop Exit.close w
      | some size =>
        match malloc w (toSizeT size) with
        | (false, w) =>
          let w := w.log (Event.stderr Diag.malloc_failed)
          let msg := bufWrite msg str_ERR_padded
          Iter.stop Exit.malloc_failed (send w (msg.take 8)).2
        | (true, w) =>
          let buf := List.replicate (toSizeT size) 0
          let msg := bufWrite msg str_OK_padded
          match send w (msg.take 8) with
          | (r, w) =>
            if r < 0 then Iter.stop Exit.send_failed (w.log (Event.stderr Diag.send_failed))
            else
              match recv w (toSizeT size) with
              | (len, data, w) =>
                let buf := bufWrite buf data
                if len < 0 then
                  Iter.stop Exit.payload_recv_failed (w.log (Event.stderr Diag.recv_failed))
                else
                  let w := if len < size then w.log (Event.stderr Diag.incomplete_recv) else w
                  match send w buf with
                  | (len, w) =>
                    if len < 0 then
                      Iter.stop Exit.echo_send_failed (w.log (Event.stderr Diag.send_bw_failed))
                    else Iter.next w

/-- The session loop of `tcp_client`, run for at most `fuel` passes; `none`
when the fuel runs out before a `break`. -/
def tcp_client_loop : Nat → World → Option (Exit × World)
  | 0, _ => none
  | fuel + 1, w =>
    match tcp_client_iter w with
    | Iter.next w => tcp_client_loop fuel w
    | Iter.stop e w => some (e, w)

/-- The function `tcp_client` on one connection: the session loop until its
`break`.  Every pass that does not break takes 8 bytes from the inbox, so
`inbox.length + 1` passes are enough (`tcp_client_total`). -/
def tcp_client (w : World) : Option (Exit × World) :=
  tcp_client_loop (w.inbox.length + 1) w

/-- Lines 427 to 429 of `run_client`: `char msg[8]` is not initialised,
`sprintf(msg, "CLOSE")` writes six bytes, and all 8 bytes are sent; `x` and `y`
are the two bytes the array happens to hold at positions 6 and 7. -/
def close_frame (x y : Nat) : List Nat :=
  (bufWrite [0, 0, 0, 0, 0, 0, x, y] str_CLOSE).take 8

/-! ## bw.c: the aggregator `stats` -/

/-- The result of `stats`, `stats_l`. -/
structure stats_l where
  avg : Int
  min : Int
  max : Int
  deriving DecidableEq, Repr

/-- The body of the `for` loop of `stats` (lines 262 to 265) for the sample `v`. -/
def stats_step (ret : stats_l) (v : Int) : stats_l :=
  let ret := if v < ret.min then { ret with min := v } else ret
  let ret := if v > ret.max then { ret with max := v } else ret
  { ret with avg := toLong (ret.avg + v) }

/-- The `for` loop of `stats` (lines 261 to 266) with `k` passes left, at index
`i`.  Reading `arr[i]` outside the array has no defined value: `none`. -/
def stats_loop (arr : List Int) : Nat → Nat → stats_l → Option stats_l
  | 0, _, ret => some ret
  | k + 1, i, ret =>
    match arr[i]? with
    | none => none
    | some v => stats_loop arr k (i + 1) (stats_step ret v)

/-- The function `stats(arr, n)` of bw.c.  The division `ret.avg /= n` divides a
`long` by a `size_t`: both operands are converted to `unsigned long`, and the
quotient is converted back to `long`.  A read outside the array or a division
by zero has no defined value: `none`. -/
def stats (arr : List Int) (n : Nat) : Option stats_l :=
  if n < 1 then some ⟨0, 0, 0⟩
  else
    match arr[0]? with
    | none => none
    | some a0 =>
      match stats_loop arr n 0 ⟨0, a0, a0⟩ with
      | none => none
      | some ret =>
        if n = 0 then none
        else some { ret with avg := toLong ((toSizeT ret.avg / n : Nat) : Int) }

/-! ## bw.c: the client transfer primitive `bw_test` -/

/-- The result of `bw_test`, `pair_l`: send time and receive time. -/
structure pair_l where
  f : Int
  s : Int
  deriving DecidableEq, Repr

/-- Lines 289 and 290 of `bw_test`: the array `char msg[9]`, zeroed, after
`sprintf(msg, "%ld", size)`; the `size_t` argument is printed as a `long`.
The text fits the array for the sizes of at most 8 digits, which are the sizes
the driver passes.  For a longer text the source writes past the array, which
C leaves undefined (what happens then depends on the build and on the layout of
the stack); the value given here for such a size, the first 9 bytes of the
text, is not a statement about the source. -/
def bw_test_msg (size : Nat) : List Nat :=
  bufWrite (List.replicate 9 0) (sprintf_ld (toLong size))

/-- The 8 header bytes `bw_test` passes to `send` (line 291). -/
def bw_test_header (size : Nat) : List Nat := (bw_test_msg size).take 8

/-- The value `t_delta.tv_usec + t_delta.tv_sec * 1000L*1000L` of lines 317 and 331. -/
def usecs (d : timeval) : Int := toLong (d.tv_usec + toLong (toLong (d.tv_sec * 1000) * 1000))

/-- The function `bw_test(sock, size)` of bw.c (lines 274 to 334). -/
def bw_test (w : World) (size : Nat) : pair_l × World :=
  let ret : pair_l := ⟨-1, -1⟩
  match malloc w ((size + 1) % 2 ^ 64) with
  | (false, w) => (ret, w.log (Event.stderr Diag.malloc_failed))
  | (true, w) =>
    let buf := List.replicate size 97 ++ [0]
    let msg := bw_test_msg size
    match send w (msg.take 8) with
    | (r, w) =>
      if r < 0 then (ret, w.log (Event.stderr Diag.send_failed))
      else
        match recv w 8 with
        | (r, data, w) =>
          let msg := bufWrite msg data
          if r < 8 then (ret, w.log (Event.stderr Diag.recv_failed))
          else if strcmp str_OK msg = 0 then (ret, w.log (Event.stderr Diag.illegal_response))
          else
            match gettimeofday w with
            | (t1, w) =>
              match send w (buf.take size) with
              | (slen, w) =>
                match gettimeofday w with
                | (t2, w) =>
                  if slen < 0 then (ret, w.log (Event.stderr Diag.send_bw_failed))
                  else
                    let ret := { ret with f := usecs (timersub t2 t1) }
                    match recv w size with
                    | (slen, _, w) =>
                      match gettimeofday w with
                      | (t3, w) =>
                        if slen < 0 then (ret, w.log (Event.stderr Diag.recv_bw_failed))
                        else if toSizeT slen < size then
                          (ret, w.log (Event.stderr Diag.incomplete_received))
                        else
                          let ret := { ret with s := usecs (timersub t3 t2) }
                          (ret, w)

/-! ## bw.c: the benchmark driver `warmup` and `run_client` -/

/-- The constant SERIES: the number of transfers per size. -/
def SERIES : Nat := 10

/-- The size ladder `bytes[]` of `run_client` (line 389). -/
def bytes : List Int :=
  [128, 256, 512, 1024, 2048, 4096, 10240, 40960, 81920, 122880, 163840, 204800, 327680,
    409600, 819200, 1228800, 1638400, 3276800, 4915200, 6553600, 65536000]

/-- The test of line 345 of `warmup`:
`((long)t_delta.tv_sec + t_delta.tv_usec/(1000L*1000L)) > (long)seconds`,
with the integer division of C. -/
def warmup_expired (t_delta : timeval) (seconds : Int) : Bool :=
  decide (toLong (t_delta.tv_sec + Int.tdiv t_delta.tv_usec 1000000) > seconds)

/-- The `while(true)` loop of `warmup` (lines 342 to 351), run for at most
`fuel` passes; `none` when the fuel runs out before the loop is left. -/
def warmup_loop : Nat → World → timeval → Int → Option World
  | 0, _, _, _ => none
  | fuel + 1, w, t1, seconds =>
    match gettimeofday w with
    | (t2, w) =>
      if warmup_expired (timersub t2 t1) seconds then some w
      else
        match bw_test w 10240 with
        | (ret, w) =>
          if ret.f < 0 ∨ ret.s < 0 then some (w.log (Event.stderr Diag.warmup_failed))
          else warmup_loop fuel w t1 seconds

/-- The function `warmup(sock, seconds)` of bw.c (lines 336 to 352).  Every
pass that does not leave the loop has read the 8 bytes of an acknowledgement,
so `inbox.length + 1` passes are enough. -/
def warmup (w : World) (seconds : Int) : Option World :=
  match gettimeofday w with
  | (t1, w) => warmup_loop (w.inbox.length + 1) w t1 seconds

/-- The inner `for` loop of `run_client` (lines 398 to 405) with `k` passes
left: the samples `(l.f + l.s) / 2L` collected so far are `tests`; `none` is
the `exit(EXIT_FAILURE)` of line 402. -/
def run_series : Nat → World → Nat → List Int → Option (List Int) × World
  | 0, w, _, tests => (some tests, w)
  | k + 1, w, size, tests =>
    match bw_test w size with
    | (l, w) =>
      if l.f < 0 ∨ l.s < 0 then (none, w.log (Event.stderr Diag.error))
      else run_series k w size (tests ++ [Int.tdiv (toLong (l.f + l.s)) 2])

/-- The value `size / (st.min) * 1e6` of line 409: the quotient of two `long`
is the integer division of C, and its product with 1e6 is computed in
`double`.  For the sizes of the ladder the product is an integer below 2^53,
which `double` represents exactly, so the value is given as an integer.
A zero divisor has no defined value: `none`. -/
def speed (size st_min : Int) : Option Int :=
  if st_min = 0 then none else some (toLong (Int.tdiv size st_min) * 1000000)

/-- How a run of `run_client` ends. -/
inductive RunResult
  /-- The `exit(EXIT_FAILURE)` of line 402. -/
  | exit_failure
  /-- The integer division of line 409 with a zero divisor. -/
  | division_by_zero
  /-- A call of `stats` without a defined result. -/
  | undefined
  /-- The fuel of `warmup` ran out. -/
  | out_of_fuel
  /-- The `return 0` of line 431, with the final value of `max_speed`. -/
  | returned (max_speed : Int)
  deriving DecidableEq, Repr

/-- The outer `for` loop of `run_client` (lines 394 to 411) over the sizes
still to do; `rows` are the lines of statistics printed so far (size and
`stats` result), `max_speed` the running maximum. -/
def run_tests : List Int → World → List (Int × stats_l) → Int →
    RunResult × List (Int × stats_l) × World
  | [], w, rows, max_speed => (RunResult.returned max_speed, rows, w)
  | size :: rest, w, rows, max_speed =>
    match run_series SERIES w (toSizeT size) [] with
    | (none, w) => (RunResult.exit_failure, rows, w)
    | (some tests, w) =>
      match stats tests SERIES with
      | none => (RunResult.undefined, rows, w)
      | some st =>
        match speed size st.min with
        | none => (RunResult.division_by_zero, rows ++ [(size, st)], w)
        | some sp =>
          run_tests rest w (rows ++ [(size, st)]) (if sp > max_speed then sp else max_speed)

/-- The function `run_client` of bw.c from line 383 on, on a connected socket
(the creation of the socket and `connect`, lines 355 to 380, have succeeded).
`warmup_s` is the global of that name; `x` and `y` are the two bytes the array
of the CLOSE frame happens to hold at its last two positions. -/
def run_client (w : World) (warmup_s : Int) (x y : Nat) :
    RunResult × List (Int × stats_l) × World :=
  match (if warmup_s > 0 then warmup w warmup_s else some w) with
  | none => (RunResult.out_of_fuel, [], w)
  | some w =>
    match run_tests bytes w [] 0 with
    | (RunResult.returned max_speed, rows, w) =>
      (RunResult.returned max_speed, rows, (send w (close_frame x y)).2)
    | r => r

/-! ## Auxiliary definitions for the statements -/

/-- The value the digit loop of `atol` gives to a run of digits. -/
def digits_value (ds : List Nat) (a : Int) : Int :=
  List.foldl (fun (acc : Int) (d : Nat) => acc * 10 + ((d : Int) - 48)) a ds

/-- A session in which the peer sends the header of size 3 and three payload bytes. -/
def echo_demo : World := World.ideal [51, 0, 0, 0, 0, 0, 0, 0, 7, 8, 9]

/-- The input stream of the scenario: the header "128" and five spaces, 128
bytes of value 0x61, and the CLOSE frame of `run_client`. -/
def scenario_input (x y : Nat) : List Nat :=
  [49, 50, 56, 32, 32, 32, 32, 32] ++ List.replicate 128 97 ++ close_frame x y

/-- The sub-series of the samples that do not carry the invalid sentinel: the
non-negative samples, in order (the exclusion the specification describes). -/
def valid_samples (arr : List Int) : List Int := arr.filter (fun v => decide (0 ≤ v))

/-- The peer of `bw_test` answers the header with "ERR" and five spaces, and
would echo 128 bytes. -/
def err_reply : World := World.ideal ([69, 82, 82, 32, 32, 32, 32, 32] ++ List.replicate 128 97)

/-- The world an outcome of a pass of the session loop leaves. -/
def Iter.world : Iter → World
  | Iter.next w => w
  | Iter.stop _ w => w

/-- A session in which the peer sends the 8 bytes "abcdefgh" and closes. -/
def garbage_session : World := World.ideal [97, 98, 99, 100, 101, 102, 103, 104]

/-- A session in which the peer sends the CLOSE frame of `run_client`, the
array holding 1 and 2 at its last two positions. -/
def close_session : World := World.ideal (close_frame 1 2)

/-- A session in which the peer sends the three bytes "128" and closes. -/
def short_header_session : World := World.ideal [49, 50, 56]

/-- A session in which the peer asks for 128 bytes and the allocation fails. -/
def alloc_failure_session : World :=
  { World.ideal [49, 50, 56, 32, 32, 32, 32, 32] with mallocPlan := [false] }

/-- A session in which the peer asks for 4 bytes, sends only the two bytes 1
and 2, and closes. -/
def short_payload_session : World := World.ideal [52, 0, 0, 0, 0, 0, 0, 0, 1, 2]

/-- A session in which the peer asks for 4 bytes and sends them, and the write
of the echo accepts only 2 bytes. -/
def short_write_session : World :=
  { World.ideal [52, 0, 0, 0, 0, 0, 0, 0, 1, 2, 3, 4] with sendPlan := [some 8, some 2] }

/-- The microsecond count of a clock reading. -/
def timeval.micros (t : timeval) : Int := t.tv_sec * 1000000 + t.tv_usec

/-- A reading `gettimeofday` can return: a non-negative number of seconds, a
number of microseconds from 0 to 999999, and a microsecond count in the range
of `long`. -/
def timeval.valid (t : timeval) : Prop :=
  0 ≤ t.tv_sec ∧ t.tv_sec ≤ 9223372036853 ∧ 0 ≤ t.tv_usec ∧ t.tv_usec < 1000000

/-- A transfer of size 0: the peer answers OK and six spaces; the clock stands
at 7.000001 s for the three readings. -/
def zero_transfer : World :=
  { World.ideal [79, 75, 32, 32, 32, 32, 32, 32] with clock := [⟨7, 1⟩, ⟨7, 1⟩, ⟨7, 1⟩] }

/-- The world of `zero_transfer` after the acknowledgement has been read. -/
def zero_transfer_ack : World :=
  (recv (send (malloc zero_transfer 1).2 (bw_test_header 0)).2 8).2.2

/-- The world of `zero_transfer` after the empty payload has been sent and the
clock read for the second time. -/
def zero_transfer_sent : World :=
  (gettimeofday (send (gettimeofday zero_transfer_ack).2 []).2).2

/-- Clock readings for `k` transfers: the transfer number i (from 1) starts at
i seconds, its payload is sent 10 microseconds later and echoed 20 microseconds
after that. -/
def series_clock : Nat → List timeval
  | 0 => []
  | k + 1 => series_clock k ++ [⟨k + 1, 0⟩, ⟨k + 1, 10⟩, ⟨k + 1, 30⟩]

/-- A run with a warmup of 1 second in which the first read of the socket fails
(the transfer of the warmup fails), and the peer then serves the 10 transfers
of size 128 and closes. -/
def failed_warmup_run : World :=
  { World.ideal (List.flatten (List.replicate 10
      ([79, 75, 32, 32, 32, 32, 32, 32] ++ List.replicate 128 97))) with
    recvPlan := [none]
    clock := [⟨0, 0⟩, ⟨0, 0⟩] ++ series_clock 10 }

/-- A warmup during which the clock reads 0 s at the start and 1.5 s at the
first pass of the loop, on a connection the peer has closed. -/
def late_warmup : World := { World.ideal [] with clock := [⟨0, 0⟩, ⟨1, 500000⟩] }

/-! ## echod.c: the statement `bytes_tcp += len` under two sessions -/

/-- A session of echod.c at the statement `bytes_tcp += len` (line 202): the
statement reads the volatile counter and then writes the sum back; no lock and
no atomic operation joins the two.  `loaded` is the value read, once the read
is done; `stored` tells that the write is done. -/
structure Adder where
  len : Nat
  loaded : Option Nat
  stored : Bool
  deriving DecidableEq, Repr

/-- One step of a session on the shared counter: the read if it is still to be
done, else the write of the sum (a `size_t`), else nothing. -/
def Adder.step (a : Adder) (counter : Nat) : Adder × Nat :=
  if a.stored then (a, counter)
  else
    match a.loaded with
    | none => ({ a with loaded := some counter }, counter)
    | some v => ({ a with stored := true }, (v + a.len) % 2 ^ 64)

/-- Two sessions run under a schedule: `false` lets the first session make its
next step, `true` the second.  The result is the counter and the two sessions
at the end of the schedule. -/
def interleave : List Bool → Adder → Adder → Nat → Nat × Adder × Adder
  | [], a, b, counter => (counter, a, b)
  | false :: rest, a, b, counter => interleave rest (a.step counter).1 b (a.step counter).2
  | true :: rest, a, b, counter => interleave rest a (b.step counter).1 (b.step counter).2

/-! ## latency.c, throughput.c: the aggregators `a_max` and `a_min` -/

/-- The `for` loop of `a_max` (latency.c lines 87 to 90, throughput.c lines 94
to 97, the same text) with `k` passes left, at index `i`.  Reading `arr[i]`
outside the array has no defined value: `none`. -/
def a_max_loop (arr : List Int) : Nat → Nat → Int → Option Int
  | 0, _, ret => some ret
  | k + 1, i, ret =>
    match arr[i]? with
    | none => none
    | some v =>
      if v < 0 then a_max_loop arr k (i + 1) ret
      else a_max_loop arr k (i + 1) (if v > ret then v else ret)

/-- The function `a_max(arr, n)` of latency.c and throughput.c: it starts from
`arr[0]`. -/
def a_max (arr : List Int) (n : Nat) : Option Int :=
  match arr[0]? with
  | none => none
  | some a0 => a_max_loop arr n 0 a0

/-- The `for` loop of `a_min` (latency.c lines 96 to 99, throughput.c lines 103
to 106) with `k` passes left, at index `i`. -/
def a_min_loop (arr : List Int) : Nat → Nat → Int → Option Int
  | 0, _, ret => some ret
  | k + 1, i, ret =>
    match arr[i]? with
    | none => none
    | some v =>
      if v < 0 then a_min_loop arr k (i + 1) ret
      else a_min_loop arr k (i + 1) (if v < ret then v else ret)

/-- The function `a_min(arr, n)` of latency.c and throughput.c: it starts from
`a_max(arr, n)`. -/
def a_min (arr : List Int) (n : Nat) : Option Int :=
  match a_max arr n with
  | none => none
  | some m => a_min_loop arr n 0 m

/-! ## Further auxiliary definitions for the statements -/

/-- A run without warmup in which the peer serves the 10 transfers of size 128
and the clock does not advance between the readings of a transfer (each
transfer takes less than a microsecond in each direction). -/
def instant_run : World :=
  World.ideal (List.flatten (List.replicate 10
    ([79, 75, 32, 32, 32, 32, 32, 32] ++ List.replicate 128 97)))

/-! # Theorems -/

/-! ## Lemmas on the C library model -/

theorem atol_digits_append (ds rest : List Nat) (a : Int)
    (h : ∀ d ∈ ds, isdigit d = true) :
    atol_digits (ds ++ rest) a = atol_digits rest (digits_value ds a) := by
  induction ds generalizing a with
  | nil => simp [digits_value]
  | cons d ds ih =>
    have hd : isdigit d = true := h d (List.mem_cons_self _ _)
    have ht : ∀ e ∈ ds, isdigit e = true := fun e he => h e (List.mem_cons_of_mem _ he)
    rw [List.cons_append, atol_digits, if_pos hd, ih _ ht]
    rfl

theorem decimal_digits_spec (fuel : Nat) : ∀ (n : Nat) (acc : List Nat), n < fuel →
    ∃ ds, decimal_digits fuel n acc = ds ++ acc ∧ ds ≠ [] ∧ (∀ d ∈ ds, isdigit d = true) ∧
      (∀ a : Int, digits_value ds a = a * 10 ^ ds.length + n) ∧
      (∀ k, 0 < k → n < 10 ^ k → ds.length ≤ k) := by
  induction fuel with
  | zero => intro n acc h; omega
  | succ fuel ih =>
    intro n acc h
    by_cases hn : n < 10
    · refine ⟨[48 + n], ?_, by simp, ?_, ?_, ?_⟩
      · simp [decimal_digits, hn]
      · intro d hd
        simp only [List.mem_singleton] at hd
        subst hd
        simp only [isdigit, Bool.and_eq_true, decide_eq_true_eq]; omega
      · intro a
        simp [digits_value]
      · intro k hk _
        simpa using hk
    · have hlt : n / 10 < fuel := by omega
      obtain ⟨ds, hds, hne, hdig, hval, hlen⟩ := ih (n / 10) ((48 + n % 10) :: acc) hlt
      refine ⟨ds ++ [48 + n % 10], ?_, by simp, ?_, ?_, ?_⟩
      · simp [decimal_digits, hn, hds]
      · intro d hd
        rcases List.mem_append.1 hd with hd | hd
        · exact hdig d hd
        · simp only [List.mem_singleton] at hd
          subst hd
          simp only [isdigit, Bool.and_eq_true, decide_eq_true_eq]; omega
      · intro a
        have := hval a
        simp only [digits_value, List.foldl_append, List.foldl_cons, List.foldl_nil,
          List.length_append, List.length_singleton] at this ⊢
        rw [this]
        push_cast
        have h10 : (n : Int) = 10 * ((n / 10 : Nat) : Int) + ((n % 10 : Nat) : Int) := by
          have := Nat.div_add_mod n 10
          exact_mod_cast this.symm
        rw [pow_succ]
        push_cast at h10
        linarith
      · intro k hk hnk
        have hk2 : 2 ≤ k := by
          by_contra hc
          have : k = 1 := by omega
          subst this
          simp at hnk
          omega
        have : n / 10 < 10 ^ (k - 1) := by
          have hp : 10 ^ k = 10 ^ (k - 1) * 10 := by
            rw [← pow_succ]; congr 1; omega
          rw [hp] at hnk
          exact Nat.div_lt_of_lt_mul (by linarith)
        have := hlen (k - 1) (by omega) this
        simp only [List.length_append, List.length_singleton]
        omega

theorem toLong_of_range (x : Int) (h0 : -(2 ^ 63) ≤ x) (h1 : x < 2 ^ 63) : toLong x = x := by
  unfold toLong
  omega

theorem atol_of_digit (d : Nat) (rest : List Nat) (hd : isdigit d = true) :
    atol (d :: rest) = max LONG_MIN (min LONG_MAX (atol_digits (d :: rest) 0)) := by
  have h := hd
  simp only [isdigit, Bool.and_eq_true, decide_eq_true_eq] at h
  have hs : isspace d = false := by
    simp only [isspace, Bool.or_eq_false_iff, beq_eq_false_iff_ne, Bool.and_eq_false_iff,
      decide_eq_false_iff_not]
    omega
  unfold atol
  rw [List.dropWhile_cons_of_neg (by simp [hs])]
  split
  · rename_i cs heq
    injection heq with h1 _
    omega
  · rename_i cs heq
    injection heq with h1 _
    omega
  · rfl

theorem strcmp_CLOSE_of_digit (d : Nat) (rest : List Nat) (hd : isdigit d = true) :
    strcmp str_CLOSE (d :: rest) ≠ 0 := by
  simp only [isdigit, Bool.and_eq_true, decide_eq_true_eq] at hd
  have hne : ¬ (67 = d) := by omega
  simp only [str_CLOSE, strcmp, hne, if_false]
  omega

theorem bufWrite_of_le (buf data : List Nat) (h : data.length ≤ buf.length) :
    bufWrite buf data = data ++ buf.drop data.length := by
  unfold bufWrite
  apply List.take_of_length_le
  simp only [List.length_append, List.length_drop]
  omega

theorem list_of_length_8 (l : List Nat) (h : l.length = 8) :
    ∃ a b c d e f g i, l = [a, b, c, d, e, f, g, i] := by
  rcases l with _ | ⟨a, _ | ⟨b, _ | ⟨c, _ | ⟨d, _ | ⟨e, _ | ⟨f, _ | ⟨g, _ | ⟨i, _ | ⟨j, l⟩⟩⟩⟩⟩⟩⟩⟩⟩ <;>
    simp at h
  exact ⟨a, b, c, d, e, f, g, i, rfl⟩

/-- The header buffer of `tcp_client` after a full header read: the 8 bytes
read and the NUL byte of `msg[8]`. -/
theorem server_msg_of_header (hdr : List Nat) (h : hdr.length = 8) :
    (bufWrite (List.replicate 9 0) hdr).set 8 0 = hdr ++ [0] := by
  obtain ⟨a, b, c, d, e, f, g, i, rfl⟩ := list_of_length_8 hdr h
  rfl

/-- The header `bw_test` sends for a size of at most 8 digits: the decimal
digits of the size, then NUL bytes up to 8 bytes. -/
theorem bw_test_header_of_size (N : Nat) (h : N ≤ 99999999) :
    ∃ d ds, (∀ e ∈ d :: ds, isdigit e = true) ∧ digits_value (d :: ds) 0 = N ∧
      (d :: ds).length ≤ 8 ∧
      bw_test_header N = d :: ds ++ List.replicate (8 - (d :: ds).length) 0 := by
  obtain ⟨ds, hds, hne, hdig, hval, hlen⟩ := decimal_digits_spec (N + 1) N [] (by omega)
  have hl : ds.length ≤ 8 := hlen 8 (by omega) (by omega)
  have hv : digits_value ds 0 = N := by simpa using hval 0
  have hmsg : bw_test_header N = ds ++ List.replicate (8 - ds.length) 0 := by
    have hL : toLong (N : Int) = (N : Int) := toLong_of_range _ (by omega) (by omega)
    have hn : ¬ ((N : Int) < 0) := by omega
    simp only [bw_test_header, bw_test_msg, hL, sprintf_ld, hn, if_false, Int.natAbs_ofNat, hds,
      List.append_nil]
    rw [bufWrite_of_le _ _ (by simp; omega)]
    simp only [List.drop_replicate, List.length_append, List.length_singleton,
      List.append_assoc, List.take_append_eq_append_take, List.take_of_length_le hl,
      List.take_replicate, List.singleton_append]
    have e1 : (0 : Nat) :: List.replicate (9 - (ds.length + 1)) 0
        = List.replicate (9 - ds.length) 0 := by
      have e0 : 9 - ds.length = (9 - (ds.length + 1)) + 1 := by omega
      conv_rhs => rw [e0, List.replicate_succ]
    rw [e1, List.take_replicate]
    have e2 : min (8 - ds.length) (9 - ds.length) = 8 - ds.length := by omega
    rw [e2]
  cases ds with
  | nil => exact absurd rfl hne
  | cons d ds => exact ⟨d, ds, hdig, hv, hl, hmsg⟩

/-! ## C1: header round trip -/

theorem atol_digits_zeros (m : Nat) (a : Int) :
    atol_digits (List.replicate m 0 ++ [0]) a = a := by
  cases m <;> simp [List.replicate_succ, atol_digits, isdigit]

/-- C1: for every size N from 0 to 99999999, the 8 header bytes `bw_test`
sends for N (decimal text written by sprintf into the zeroed 9-byte array,
first 8 bytes) are 8 bytes that the server `tcp_client` does not take for
CLOSE and decodes with atol to exactly N. -/
theorem header_roundtrip (N : Nat) (h : N ≤ 99999999) :
    (bw_test_header N).length = 8 ∧
    tcp_client_header ((bufWrite (List.replicate 9 0) (bw_test_header N)).set 8 0)
      = some (N : Int) := by
  obtain ⟨d, ds, hdig, hval, hlen, hmsg⟩ := bw_test_header_of_size N h
  have hl : (bw_test_header N).length = 8 := by
    rw [hmsg]
    simp only [List.length_cons, List.length_append, List.length_replicate] at hlen ⊢
    omega
  refine ⟨hl, ?_⟩
  rw [server_msg_of_header _ hl, hmsg]
  have hd : isdigit d = true := hdig d (List.mem_cons_self _ _)
  have e : d :: ds ++ List.replicate (8 - (d :: ds).length) 0 ++ [0]
      = d :: (ds ++ (List.replicate (8 - (d :: ds).length) 0 ++ [0])) := by simp
  rw [e]
  unfold tcp_client_header
  rw [if_neg (strcmp_CLOSE_of_digit d _ hd), atol_of_digit d _ hd]
  have e2 : d :: (ds ++ (List.replicate (8 - (d :: ds).length) 0 ++ [0]))
      = (d :: ds) ++ (List.replicate (8 - (d :: ds).length) 0 ++ [0]) := by simp
  rw [e2, atol_digits_append _ _ _ hdig, atol_digits_zeros, hval]
  have hc : max LONG_MIN (min LONG_MAX (N : Int)) = (N : Int) := by
    simp only [LONG_MIN, LONG_MAX]
    omega
  rw [hc]

/-- C1 at the largest size of the ladder of `run_client`. -/
theorem header_roundtrip_witness :
    65536000 ≤ 99999999 ∧ (bw_test_header 65536000).length = 8 ∧
    tcp_client_header ((bufWrite (List.replicate 9 0) (bw_test_header 65536000)).set 8 0)
      = some (65536000 : Int) :=
  ⟨by decide, header_roundtrip 65536000 (by decide)⟩

/-! ## Lemmas on the environment -/

theorem recv_spec (w w1 : World) (n : Nat) (r : Int) (d : List Nat)
    (h : recv w n = (r, d, w1)) :
    w1.trace = w.trace ++ [Event.recv n r d] ∧ (r = -1 ∨ r = d.length) ∧ d.length ≤ n ∧
      w1.inbox.length + d.length = w.inbox.length ∧ w.inbox = d ++ w1.inbox := by
  unfold recv at h
  split at h <;> simp only [Prod.mk.injEq] at h <;> obtain ⟨rfl, rfl, rfl⟩ := h
  · simp
  · simp [List.length_take]
    omega
  · simp [List.length_take]
    omega

theorem send_spec (w w1 : World) (buf : List Nat) (r : Int) (h : send w buf = (r, w1)) :
    w1.trace = w.trace ++ [Event.send buf r] ∧ -1 ≤ r ∧ r ≤ buf.length ∧
      w1.inbox = w.inbox := by
  unfold send at h
  split at h <;> simp only [Prod.mk.injEq] at h <;> obtain ⟨rfl, rfl⟩ := h
  · simp; omega
  · simp; omega
  · simp; omega

theorem send_inbox (w : World) (buf : List Nat) : (send w buf).2.inbox = w.inbox :=
  (send_spec w (send w buf).2 buf (send w buf).1 rfl).2.2.2

theorem malloc_spec (w w1 : World) (n : Nat) (ok : Bool) (h : malloc w n = (ok, w1)) :
    w1.trace = w.trace ++ [Event.malloc n ok] ∧ w1.inbox = w.inbox := by
  unfold malloc at h
  split at h <;> simp only [Prod.mk.injEq] at h <;> obtain ⟨rfl, rfl⟩ := h <;> simp

theorem sent_append (a b : List Event) : sent (a ++ b) = sent a ++ sent b := by
  induction a with
  | nil => rfl
  | cons e a ih => cases e <;> simp [sent, ih]

theorem allocated_append (a b : List Event) : allocated (a ++ b) = allocated a ++ allocated b := by
  induction a with
  | nil => rfl
  | cons e a ih =>
    cases e with
    | malloc size ok => cases ok <;> simp [allocated, ih]
    | _ => simp [allocated, ih]

theorem bufWrite_length (buf data : List Nat) : (bufWrite buf data).length = buf.length := by
  simp only [bufWrite, List.length_take, List.length_append, List.length_drop]
  omega

theorem bufWrite_full (buf data : List Nat) (h : data.length = buf.length) :
    bufWrite buf data = data := by
  rw [bufWrite_of_le _ _ (by omega), List.drop_of_length_le (by omega), List.append_nil]

/-- The header buffer of `tcp_client` after `sprintf` of a 9-byte text. -/
theorem server_msg_reply (data text : List Nat) (h : text.length = 9) :
    bufWrite ((bufWrite (List.replicate 9 0) data).set 8 0) text = text := by
  apply bufWrite_full
  rw [List.length_set, bufWrite_length, h]
  rfl

theorem tcp_client_header_range (msg : List Nat) (v : Int)
    (h : tcp_client_header msg = some v) : LONG_MIN ≤ v ∧ v ≤ LONG_MAX := by
  unfold tcp_client_header at h
  split at h
  · exact absurd h (by simp)
  · simp only [Option.some.injEq] at h
    subst h
    unfold atol
    simp only [LONG_MIN, LONG_MAX]
    omega

/-! ## Termination of the session loop -/

/-- A pass of the session loop that does not break has taken the 8 header
bytes from the inbox. -/
theorem tcp_client_iter_next_inbox (w w5 : World) (h : tcp_client_iter w = Iter.next w5) :
    w5.inbox.length + 8 ≤ w.inbox.length := by
  unfold tcp_client_iter at h
  rcases h1 : recv w 8 with ⟨l, d, w1⟩
  have s1 := recv_spec _ _ _ _ _ h1
  simp only [h1] at h
  split_ifs at h with c1 c2 c3
  split at h
  · exact absurd h (by simp)
  · rename_i size hsz
    rcases h2 : malloc w1 (toSizeT size) with ⟨ok, w2⟩
    have s2 := malloc_spec _ _ _ _ h2
    rw [h2] at h
    cases ok with
    | false => exact absurd h (by simp)
    | true =>
      simp only at h
      rcases h3 : send w2 (List.take 8 (bufWrite ((bufWrite (List.replicate 9 0) d).set 8 0)
        str_OK_padded)) with ⟨r, w3⟩
      have s3 := send_spec _ _ _ _ h3
      rw [h3] at h
      simp only at h
      rcases h4 : recv w3 (toSizeT size) with ⟨len, data, w4⟩
      have s4 := recv_spec _ _ _ _ _ h4
      rw [s3.2.2.2, s2.2] at s4
      rw [h4] at h
      simp only at h
      split_ifs at h with c4 c5 c6 c7 c8
      all_goals
        simp only [Iter.next.injEq] at h
        subst h
        simp only [send_inbox, World.log]
        omega

theorem tcp_client_loop_total (fuel : Nat) : ∀ w : World, w.inbox.length < fuel →
    ∃ e wf, tcp_client_loop fuel w = some (e, wf) := by
  induction fuel with
  | zero => intro w h; omega
  | succ fuel ih =>
    intro w h
    unfold tcp_client_loop
    cases hi : tcp_client_iter w with
    | next w5 =>
      have := tcp_client_iter_next_inbox w w5 hi
      exact ih w5 (by omega)
    | stop e wf => exact ⟨e, wf, rfl⟩

/-- The function `tcp_client` always terminates through one of its `break`s:
the fuel of the model is never used up. -/
theorem tcp_client_total (w : World) : ∃ e wf, tcp_client w = some (e, wf) :=
  tcp_client_loop_total _ w (Nat.lt_succ_self _)

/-! ## C2: echo identity -/

/-- C2: for every N and every payload: when the header read delivers a header
that decodes to N, the allocation succeeds, the acknowledgement send does not
fail, the payload read delivers all N bytes and the write accepts all N bytes,
then the pass of `tcp_client` reaches its end, its last action sends exactly
the N bytes received, in order, all accepted, and the bytes written after the
acknowledgement are these N bytes and nothing else. -/
theorem echo_identity (w w1 w2 w3 w4 : World) (hdr payload : List Nat) (N : Nat) (r : Int)
    (hhdr : recv w 8 = (8, hdr, w1))
    (hdec : tcp_client_header ((bufWrite (List.replicate 9 0) hdr).set 8 0) = some (N : Int))
    (hmalloc : malloc w1 N = (true, w2))
    (hack : send w2 (str_OK_padded.take 8) = (r, w3)) (hr : 0 ≤ r)
    (hpay : recv w3 N = ((N : Int), payload, w4))
    (hecho : ∀ buf : List Nat, buf.length = N → (send w4 buf).1 = (N : Int)) :
    ∃ w5, tcp_client_iter w = Iter.next w5 ∧
      payload.length = N ∧
      w5.trace = w4.trace ++ [Event.send payload (N : Int)] ∧
      sent w5.trace = sent w3.trace ++ payload := by
  have hlen : payload.length = N := by
    have := (recv_spec _ _ _ _ _ hpay).2.1
    omega
  have hrange := tcp_client_header_range _ _ hdec
  have hN : toSizeT (N : Int) = N := by
    simp only [LONG_MAX] at hrange
    unfold toSizeT
    omega
  have hbuf : bufWrite (List.replicate N 0) payload = payload := by
    rw [bufWrite_of_le _ _ (by simp [hlen])]
    simp [hlen]
  have hs := hecho payload hlen
  have htr := (send_spec w4 (send w4 payload).2 payload (send w4 payload).1 rfl).1
  have htr4 := (recv_spec _ _ _ _ _ hpay).1
  refine ⟨(send w4 payload).2, ?_, hlen, ?_, ?_⟩
  · have h8 : ¬ ((8 : Int) < 0) := by omega
    have hr' : ¬ (r < 0) := by omega
    have hN0 : ¬ ((N : Int) < 0) := by omega
    have hok : bufWrite ((bufWrite (List.replicate 9 0) hdr).set 8 0) str_OK_padded
        = str_OK_padded := server_msg_reply _ _ rfl
    simp only [tcp_client_iter, hhdr, hdec, hN, hmalloc, hok, hack, hpay, hbuf, hs, h8, hr', hN0,
      if_false, lt_self_iff_false, OfNat.ofNat_ne_zero]
  · rw [htr, hs]
  · rw [htr, hs, sent_append]
    simp [sent, htr4, sent_append, hlen]

/-- C2 on the session `echo_demo`: header "3", payload 7, 8, 9. -/
theorem echo_identity_witness :
    ∃ w5, tcp_client_iter echo_demo = Iter.next w5 ∧
      [7, 8, 9].length = 3 ∧
      w5.trace = (recv (send (malloc (recv echo_demo 8).2.2 3).2 (str_OK_padded.take 8)).2 3).2.2.trace
        ++ [Event.send [7, 8, 9] ((3 : Nat) : Int)] ∧
      sent w5.trace = sent (send (malloc (recv echo_demo 8).2.2 3).2 (str_OK_padded.take 8)).2.trace
        ++ [7, 8, 9] :=
  echo_identity echo_demo (recv echo_demo 8).2.2 (malloc (recv echo_demo 8).2.2 3).2
    (send (malloc (recv echo_demo 8).2.2 3).2 (str_OK_padded.take 8)).2
    (recv (send (malloc (recv echo_demo 8).2.2 3).2 (str_OK_padded.take 8)).2 3).2.2
    [51, 0, 0, 0, 0, 0, 0, 0] [7, 8, 9] 3 8 (by rfl) (by rfl) (by rfl) (by rfl) (by decide)
    (by rfl) (by intro buf h; show (buf.length : Int) = ((3 : Nat) : Int); rw [h])

/-! ## C3: the scenario of one request and CLOSE -/

set_option maxRecDepth 100000 in
/-- C3: on the input stream made of the header "128" with five spaces, 128
bytes 0x61 and the CLOSE frame of `run_client` (CLOSE, NUL, any two bytes),
with every call served in full, `tcp_client` terminates through the CLOSE
branch; its actions are the header read, the allocation of 128 bytes, the send
of OK with six spaces, the payload read, the echo of the 128 bytes and the read
of the CLOSE frame; the bytes it wrote are OK, six spaces and 128 bytes 0x61;
and nothing was printed on stderr. -/
theorem scenario_128 (x y : Nat) :
    ∃ wf, tcp_client (World.ideal (scenario_input x y)) = some (Exit.close, wf) ∧
      wf.inbox = [] ∧
      wf.trace = [Event.recv 8 8 [49, 50, 56, 32, 32, 32, 32, 32], Event.malloc 128 true,
        Event.send [79, 75, 32, 32, 32, 32, 32, 32] 8,
        Event.recv 128 128 (List.replicate 128 97),
        Event.send (List.replicate 128 97) 128,
        Event.recv 8 8 [67, 76, 79, 83, 69, 0, x, y]] ∧
      sent wf.trace = [79, 75, 32, 32, 32, 32, 32, 32] ++ List.replicate 128 97 ∧
      ∀ d, Event.stderr d ∉ wf.trace := by
  refine ⟨{ World.ideal [] with
      trace := [Event.recv 8 8 [49, 50, 56, 32, 32, 32, 32, 32], Event.malloc 128 true,
        Event.send [79, 75, 32, 32, 32, 32, 32, 32] 8,
        Event.recv 128 128 (List.replicate 128 97),
        Event.send (List.replicate 128 97) 128,
        Event.recv 8 8 [67, 76, 79, 83, 69, 0, x, y]] }, rfl, rfl, rfl, rfl, ?_⟩
  intro d hd
  simp at hd

/-! ## C4, C5: the aggregator on valid series -/

theorem stats_step_min (ret : stats_l) (v : Int) :
    (stats_step ret v).min = if v < ret.min then v else ret.min := by
  unfold stats_step
  by_cases h1 : v < ret.min <;> by_cases h2 : v > ret.max <;> simp [h1, h2]

theorem stats_step_max (ret : stats_l) (v : Int) :
    (stats_step ret v).max = if v > ret.max then v else ret.max := by
  unfold stats_step
  by_cases h1 : v < ret.min <;> by_cases h2 : v > ret.max <;> simp [h1, h2]

theorem stats_step_avg (ret : stats_l) (v : Int) :
    (stats_step ret v).avg = toLong (ret.avg + v) := by
  unfold stats_step
  by_cases h1 : v < ret.min <;> by_cases h2 : v > ret.max <;> simp [h1, h2]

/-- Invariant of the `for` loop of `stats` for min and max: started at index
`i` with `k` passes left on an array of `i + k` samples, the loop ends, with the
least and the greatest of the start values and the samples from `i` on. -/
theorem stats_loop_minmax (arr : List Int) : ∀ (k i : Nat) (ret : stats_l),
    i + k = arr.length →
    ∃ r, stats_loop arr k i ret = some r ∧
      r.min ≤ ret.min ∧ (∀ v ∈ arr.drop i, r.min ≤ v) ∧ (r.min = ret.min ∨ r.min ∈ arr.drop i) ∧
      ret.max ≤ r.max ∧ (∀ v ∈ arr.drop i, v ≤ r.max) ∧ (r.max = ret.max ∨ r.max ∈ arr.drop i) := by
  intro k
  induction k with
  | zero =>
    intro i ret hik
    have hd : arr.drop i = [] := List.drop_of_length_le (by omega)
    refine ⟨ret, rfl, le_refl _, ?_, Or.inl rfl, le_refl _, ?_, Or.inl rfl⟩ <;> simp [hd]
  | succ k ih =>
    intro i ret hik
    have hi : i < arr.length := by omega
    have hd : arr.drop i = arr[i] :: arr.drop (i + 1) := List.drop_eq_getElem_cons hi
    rw [hd]
    unfold stats_loop
    rw [List.getElem?_eq_getElem hi]
    simp only
    obtain ⟨r, hr, h1, h2, h3, h4, h5, h6⟩ := ih (i + 1) (stats_step ret arr[i]) (by omega)
    rw [stats_step_min] at h1 h3
    rw [stats_step_max] at h4 h6
    refine ⟨r, hr, ?_, ?_, ?_, ?_, ?_, ?_⟩
    · split_ifs at h1 <;> omega
    · intro v hv'
      rcases List.mem_cons.1 hv' with rfl | hv'
      · split_ifs at h1 <;> omega
      · exact h2 v hv'
    · rcases h3 with h3 | h3
      · split_ifs at h3
        · right; rw [h3]; exact List.mem_cons_self _ _
        · left; exact h3
      · exact Or.inr (List.mem_cons_of_mem _ h3)
    · split_ifs at h4 <;> omega
    · intro v hv'
      rcases List.mem_cons.1 hv' with rfl | hv'
      · split_ifs at h4 <;> omega
      · exact h5 v hv'
    · rcases h6 with h6 | h6
      · split_ifs at h6
        · right; rw [h6]; exact List.mem_cons_self _ _
        · left; exact h6
      · exact Or.inr (List.mem_cons_of_mem _ h6)

/-- Invariant of the `for` loop of `stats` for the sum: on non-negative samples
whose running sum stays in the range of `long`, the loop adds the samples from
index `i` on to `avg`. -/
theorem stats_loop_avg (arr : List Int) : ∀ (k i : Nat) (ret r : stats_l),
    i + k = arr.length → (∀ v ∈ arr.drop i, 0 ≤ v) → 0 ≤ ret.avg →
    ret.avg + (arr.drop i).sum ≤ LONG_MAX → stats_loop arr k i ret = some r →
    r.avg = ret.avg + (arr.drop i).sum := by
  intro k
  induction k with
  | zero =>
    intro i ret r hik _ _ _ hr
    have hd : arr.drop i = [] := List.drop_of_length_le (by omega)
    simp only [stats_loop, Option.some.injEq] at hr
    simp [hd, hr]
  | succ k ih =>
    intro i ret r hik hpos havg hsum hr
    have hi : i < arr.length := by omega
    have hd : arr.drop i = arr[i] :: arr.drop (i + 1) := List.drop_eq_getElem_cons hi
    rw [hd] at hpos hsum ⊢
    have hv : 0 ≤ arr[i] := hpos _ (List.mem_cons_self _ _)
    have hrest : ∀ v ∈ arr.drop (i + 1), 0 ≤ v := fun v hv => hpos v (List.mem_cons_of_mem _ hv)
    have hs0 : 0 ≤ (arr.drop (i + 1)).sum := List.sum_nonneg hrest
    simp only [List.sum_cons] at hsum ⊢
    have hwrap : toLong (ret.avg + arr[i]) = ret.avg + arr[i] := by
      apply toLong_of_range
      · omega
      · simp only [LONG_MAX] at hsum
        omega
    unfold stats_loop at hr
    rw [List.getElem?_eq_getElem hi] at hr
    simp only at hr
    have h7 := ih (i + 1) (stats_step ret arr[i]) r (by omega) hrest
      (by rw [stats_step_avg, hwrap]; omega) (by rw [stats_step_avg, hwrap]; omega) hr
    rw [stats_step_avg, hwrap] at h7
    omega

/-- The division `ret.avg /= n` on a non-negative sum is the division that
truncates toward zero. -/
theorem stats_avg_div (s : Int) (n : Nat) (h0 : 0 ≤ s) (h1 : s ≤ LONG_MAX) :
    toLong ((toSizeT s / n : Nat) : Int) = Int.tdiv s n := by
  simp only [LONG_MAX] at h1
  have hs : toSizeT s = s.toNat := by
    unfold toSizeT
    congr 1
    omega
  have hq : ((s.toNat / n : Nat) : Int) = s / (n : Int) := by
    rw [Int.ofNat_ediv, Int.toNat_of_nonneg h0]
  rw [hs, hq, Int.tdiv_eq_ediv h0 (Int.ofNat_nonneg n)]
  apply toLong_of_range
  · have : 0 ≤ s / (n : Int) := Int.ediv_nonneg h0 (Int.ofNat_nonneg n)
    omega
  · have : s / (n : Int) ≤ s := Int.ediv_le_self _ h0
    omega

/-- On every non-empty series, whatever the signs of the samples, `stats`
returns a result; its min is the least and its max the greatest of all the
samples. -/
theorem stats_minmax (arr : List Int) (hne : arr ≠ []) :
    ∃ r, stats arr arr.length = some r ∧
      r.min ∈ arr ∧ (∀ v ∈ arr, r.min ≤ v) ∧
      r.max ∈ arr ∧ (∀ v ∈ arr, v ≤ r.max) := by
  cases arr with
  | nil => exact absurd rfl hne
  | cons a0 tl =>
    obtain ⟨r, hr, h1, h2, h3, h4, h5, h6⟩ :=
      stats_loop_minmax (a0 :: tl) (a0 :: tl).length 0 ⟨0, a0, a0⟩ (by simp)
    simp only [List.drop_zero] at h2 h3 h5 h6
    have hn1 : ¬ ((a0 :: tl).length < 1) := by simp
    have hn0 : ¬ ((a0 :: tl).length = 0) := by simp
    refine ⟨{ r with avg := toLong ((toSizeT r.avg / (a0 :: tl).length : Nat) : Int) }, ?_,
      ?_, h2, ?_, h5⟩
    · unfold stats
      rw [if_neg hn1]
      simp only [List.getElem?_cons_zero, hr, if_neg hn0]
    · rcases h3 with h3 | h3
      · simp only at h3 ⊢
        rw [h3]
        exact List.mem_cons_self _ _
      · exact h3
    · rcases h6 with h6 | h6
      · simp only at h6 ⊢
        rw [h6]
        exact List.mem_cons_self _ _
      · exact h6

/-- C4: for every non-empty series of non-negative samples whose sum fits in a
long, `stats` returns a result whose min is the least sample, whose max is the
greatest sample, and whose avg is the sum divided by the count with truncation
toward zero. -/
theorem stats_summary (arr : List Int) (hne : arr ≠ []) (hpos : ∀ v ∈ arr, 0 ≤ v)
    (hsum : arr.sum ≤ LONG_MAX) :
    ∃ r, stats arr arr.length = some r ∧
      r.min ∈ arr ∧ (∀ v ∈ arr, r.min ≤ v) ∧
      r.max ∈ arr ∧ (∀ v ∈ arr, v ≤ r.max) ∧
      r.avg = Int.tdiv arr.sum arr.length := by
  obtain ⟨r, hr, h1, h2, h3, h4⟩ := stats_minmax arr hne
  refine ⟨r, hr, h1, h2, h3, h4, ?_⟩
  cases arr with
  | nil => exact absurd rfl hne
  | cons a0 tl =>
    have hs0 : 0 ≤ (a0 :: tl).sum := List.sum_nonneg hpos
    unfold stats at hr
    rw [if_neg (by simp)] at hr
    simp only [List.getElem?_cons_zero] at hr
    split at hr
    · exact absurd hr (by simp)
    · rename_i r0 hr0
      rw [if_neg (by simp)] at hr
      simp only [Option.some.injEq] at hr
      subst hr
      have h7 := stats_loop_avg (a0 :: tl) (a0 :: tl).length 0 ⟨0, a0, a0⟩ r0 (by simp)
        (by simpa using hpos) (le_refl _) (by simpa using hsum) hr0
      simp only [List.drop_zero, zero_add] at h7
      simp only
      rw [h7]
      exact stats_avg_div _ _ hs0 hsum

/-- C4 on the series 5, 1, 9, 3: min 1, max 9, avg 4 (18 / 4 truncated). -/
theorem stats_summary_witness :
    stats [5, 1, 9, 3] 4 = some ⟨4, 1, 9⟩ ∧
    ∃ r, stats [5, 1, 9, 3] [5, 1, 9, 3].length = some r ∧
      r.min ∈ [5, 1, 9, 3] ∧ (∀ v ∈ [5, 1, 9, 3], r.min ≤ v) ∧
      r.max ∈ [5, 1, 9, 3] ∧ (∀ v ∈ [5, 1, 9, 3], v ≤ r.max) ∧
      r.avg = Int.tdiv (List.sum [5, 1, 9, 3]) ([5, 1, 9, 3].length : Nat) :=
  ⟨by decide, stats_summary [5, 1, 9, 3] (by decide) (by decide) (by decide)⟩

/-- C5: `stats` called with n = 0 returns avg = 0, min = 0, max = 0, whatever
the array is, the empty array included: it reads no element (a read outside the
array would give no result) and does not reach the division. -/
theorem stats_empty (arr : List Int) : stats arr 0 = some ⟨0, 0, 0⟩ := by
  rfl

/-! ## C6: `stats` excludes nothing -/

/-- C6, counterexample: on the series -1, 5 `stats` returns min = -1 (the
sentinel) and avg = 2, while the summary over the non-negative sub-series, the
single sample 5, is avg = min = max = 5. -/
theorem stats_keeps_sentinel :
    stats [-1, 5] [-1, 5].length = some ⟨2, -1, 5⟩ ∧
    stats (valid_samples [-1, 5]) (valid_samples [-1, 5]).length = some ⟨5, 5, 5⟩ ∧
    stats [-1, 5] [-1, 5].length ≠ stats (valid_samples [-1, 5]) (valid_samples [-1, 5]).length := by
  decide

/-- C6, amended: `stats` performs no exclusion.  On every non-empty series it
aggregates all the samples, negative ones included: min is the least and max
the greatest of all of them; and its result equals the summary computed over
the sub-series of non-negative samples if and only if the series holds no
negative sample. -/
theorem stats_no_exclusion (arr : List Int) (hne : arr ≠ []) :
    (∃ r, stats arr arr.length = some r ∧
      r.min ∈ arr ∧ (∀ v ∈ arr, r.min ≤ v) ∧ r.max ∈ arr ∧ (∀ v ∈ arr, v ≤ r.max)) ∧
    (stats arr arr.length = stats (valid_samples arr) (valid_samples arr).length ↔
      ∀ v ∈ arr, 0 ≤ v) := by
  refine ⟨stats_minmax arr hne, ?_, ?_⟩
  · intro heq
    by_contra hex
    push_neg at hex
    obtain ⟨v, hv, hneg⟩ := hex
    obtain ⟨r, hr, _, hmin, _, _⟩ := stats_minmax arr hne
    have hrmin : r.min < 0 := lt_of_le_of_lt (hmin v hv) hneg
    rw [hr] at heq
    by_cases hvalid : valid_samples arr = []
    · rw [hvalid] at heq
      have h0 : stats ([] : List Int) ([] : List Int).length = some ⟨0, 0, 0⟩ := rfl
      rw [h0] at heq
      simp only [Option.some.injEq] at heq
      rw [heq] at hrmin
      exact absurd hrmin (by decide)
    · obtain ⟨r', hr', hmem, _, _, _⟩ := stats_minmax (valid_samples arr) hvalid
      rw [hr'] at heq
      simp only [Option.some.injEq] at heq
      rw [heq] at hrmin
      have h0 : 0 ≤ r'.min := by
        have := (List.mem_filter.1 hmem).2
        simpa using this
      omega
  · intro hpos
    have hf : valid_samples arr = arr := by
      unfold valid_samples
      rw [List.filter_eq_self]
      intro v hv
      simpa using hpos v hv
    rw [hf]

/-- C6, amended, on the series -1, 5, which holds the sentinel: min is -1, and
the result differs from the summary of the non-negative sub-series. -/
theorem stats_no_exclusion_witness :
    (∃ r, stats [-1, 5] [-1, 5].length = some r ∧
      r.min ∈ [-1, 5] ∧ (∀ v ∈ [-1, 5], r.min ≤ v) ∧ r.max ∈ [-1, 5] ∧
        (∀ v ∈ [-1, 5], v ≤ r.max)) ∧
    (stats [-1, 5] [-1, 5].length
        = stats (valid_samples [-1, 5]) (valid_samples [-1, 5]).length ↔
      ∀ v ∈ [-1, 5], (0 : Int) ≤ v) :=
  stats_no_exclusion [-1, 5] (by decide)

/-! ## C7: the acknowledgement check of `bw_test` -/

set_option maxRecDepth 100000 in
/-- C7, the code at the failing input: when the peer answers the header of
size 128 with "ERR" and five spaces, `bw_test` prints no "Illegal response",
sends the 128 payload bytes and returns a pair without the failure sentinel.
The test of line 301 is inverted: the answer it rejects is the one that reads
"OK" as a C string (O, K and a NUL byte). -/
theorem bw_test_accepts_err :
    bw_test err_reply 128 =
      (⟨0, 0⟩,
        { World.ideal [] with
          trace := [Event.malloc 129 true, Event.send [49, 50, 56, 0, 0, 0, 0, 0] 8,
            Event.recv 8 8 [69, 82, 82, 32, 32, 32, 32, 32],
            Event.send (List.replicate 128 97) 128,
            Event.recv 128 128 (List.replicate 128 97)] }) ∧
    bw_test (World.ideal [79, 75, 0, 0, 0, 0, 0, 0]) 128 =
      (⟨-1, -1⟩,
        { World.ideal [] with
          trace := [Event.malloc 129 true, Event.send [49, 50, 56, 0, 0, 0, 0, 0] 8,
            Event.recv 8 8 [79, 75, 0, 0, 0, 0, 0, 0],
            Event.stderr Diag.illegal_response] }) := by
  constructor <;> rfl

theorem send_trace (w : World) (buf : List Nat) :
    (send w buf).2.trace = w.trace ++ [Event.send buf (send w buf).1] :=
  (send_spec w (send w buf).2 buf (send w buf).1 rfl).1

theorem recv_trace (w : World) (n : Nat) :
    (recv w n).2.2.trace = w.trace ++ [Event.recv n (recv w n).1 (recv w n).2.1] :=
  (recv_spec w (recv w n).2.2 n (recv w n).1 (recv w n).2.1 rfl).1

theorem log_trace (w : World) (e : Event) : (w.log e).trace = w.trace ++ [e] := rfl

/-! ## C8, C10: how `tcp_client` decodes a header -/

/-- The comparison with "CLOSE" of line 141 succeeds exactly for the headers
that begin with CLOSE and a NUL byte. -/
theorem strcmp_CLOSE_iff (a b c d e f g i : Nat) :
    strcmp str_CLOSE ([a, b, c, d, e, f, g, i] ++ [0]) = 0 ↔
      a = 67 ∧ b = 76 ∧ c = 79 ∧ d = 83 ∧ e = 69 ∧ f = 0 := by
  simp only [str_CLOSE, strcmp, List.cons_append, List.nil_append]
  constructor
  · intro h
    split_ifs at h <;> first | omega | contradiction
  · rintro ⟨rfl, rfl, rfl, rfl, rfl, rfl⟩
    simp

/-- A text whose first byte is neither white space, a sign nor a digit has the
`atol` value 0. -/
theorem atol_no_digits (c : Nat) (cs : List Nat) (hs : isspace c = false) (hm : c ≠ 45)
    (hp : c ≠ 43) (hd : isdigit c = false) : atol (c :: cs) = 0 := by
  unfold atol
  rw [List.dropWhile_cons_of_neg (by simp [hs])]
  split
  · rename_i heq
    injection heq with h1 _
    exact absurd h1 hm
  · rename_i heq
    injection heq with h1 _
    exact absurd h1 hp
  · simp [atol_digits, hd, LONG_MIN, LONG_MAX]

/-- C8, counterexample: on the header "abcdefgh", with every call served in
full, `tcp_client` allocates a buffer (of size 0), sends the OK
acknowledgement, reads and echoes a payload of length 0, and goes back to
reading a header; the session ends only because the peer has closed.  On the
header "12abcdef" followed by 12 bytes it allocates 12 bytes, sends OK and
echoes the 12 bytes. -/
theorem garbage_header_acknowledged :
    tcp_client (World.ideal [97, 98, 99, 100, 101, 102, 103, 104]) =
      some (Exit.peer_closed,
        { World.ideal [] with
          trace := [Event.recv 8 8 [97, 98, 99, 100, 101, 102, 103, 104], Event.malloc 0 true,
            Event.send [79, 75, 32, 32, 32, 32, 32, 32] 8, Event.recv 0 0 [],
            Event.send [] 0, Event.recv 8 0 []] }) ∧
    tcp_client (World.ideal ([49, 50, 97, 98, 99, 100, 101, 102] ++ List.replicate 12 7)) =
      some (Exit.peer_closed,
        { World.ideal [] with
          trace := [Event.recv 8 8 [49, 50, 97, 98, 99, 100, 101, 102], Event.malloc 12 true,
            Event.send [79, 75, 32, 32, 32, 32, 32, 32] 8,
            Event.recv 12 12 (List.replicate 12 7),
            Event.send (List.replicate 12 7) 12, Event.recv 8 0 []] }) := by
  decide

/-- C8, amended: `tcp_client` has no protocol-error branch for a header.  Every
full 8-byte header that the comparison of line 141 does not take for CLOSE is
decoded with `atol` and handled as a length request: the next action is the
allocation of a buffer of the decoded size, and when the allocation succeeds
the action after it is the send of the OK acknowledgement.  A header whose
first byte is neither white space, a sign nor a digit decodes to 0. -/
theorem header_never_rejected (w w1 w2 : World) (hdr : List Nat)
    (hrecv : recv w 8 = (8, hdr, w1))
    (hclose : strcmp str_CLOSE (hdr ++ [0]) ≠ 0)
    (hmalloc : malloc w1 (toSizeT (atol (hdr ++ [0]))) = (true, w2)) :
    (∃ r rest, (tcp_client_iter w).world.trace =
      w.trace ++ [Event.recv 8 8 hdr, Event.malloc (toSizeT (atol (hdr ++ [0]))) true,
        Event.send [79, 75, 32, 32, 32, 32, 32, 32] r] ++ rest) ∧
    (∀ c cs, hdr = c :: cs → isspace c = false → c ≠ 45 → c ≠ 43 → isdigit c = false →
      atol (hdr ++ [0]) = 0) := by
  have s1 := recv_spec _ _ _ _ _ hrecv
  have hl : hdr.length = 8 := by
    have := s1.2.1
    omega
  have s2 := malloc_spec _ _ _ _ hmalloc
  constructor
  · have hmsg := server_msg_of_header hdr hl
    have hok : bufWrite (hdr ++ [0]) str_OK_padded = str_OK_padded :=
      bufWrite_full _ _ (by simp [hl, str_OK_padded])
    have h8 : ¬ ((8 : Int) < 0) := by omega
    simp only [tcp_client_iter, hrecv, hmsg, tcp_client_header, if_neg hclose, hmalloc, hok, h8,
      if_false, OfNat.ofNat_ne_zero, lt_self_iff_false]
    split_ifs <;>
      simp only [Iter.world, log_trace, send_trace, recv_trace, s2.1, s1.1, List.append_assoc,
        List.singleton_append, List.cons_append, List.nil_append, str_OK_padded,
        List.take_succ_cons, List.take_zero] <;>
      exact ⟨_, _, rfl⟩
  · intro c cs hc hs hm hp hd
    rw [hc]
    exact atol_no_digits c _ hs hm hp hd

/-- C8, amended, on the header "abcdefgh": a buffer of size 0 is allocated and
OK is sent. -/
theorem header_never_rejected_witness :
    (∃ r rest, (tcp_client_iter garbage_session).world.trace =
      garbage_session.trace ++ [Event.recv 8 8 [97, 98, 99, 100, 101, 102, 103, 104],
        Event.malloc (toSizeT (atol ([97, 98, 99, 100, 101, 102, 103, 104] ++ [0]))) true,
        Event.send [79, 75, 32, 32, 32, 32, 32, 32] r] ++ rest) ∧
    (∀ c cs, [97, 98, 99, 100, 101, 102, 103, 104] = c :: cs → isspace c = false → c ≠ 45 →
      c ≠ 43 → isdigit c = false → atol ([97, 98, 99, 100, 101, 102, 103, 104] ++ [0]) = 0) :=
  header_never_rejected garbage_session (recv garbage_session 8).2.2
    (malloc (recv garbage_session 8).2.2 0).2 [97, 98, 99, 100, 101, 102, 103, 104]
    (by rfl) (by decide) (by rfl)

/-! ## C10: the CLOSE frame -/

/-- C10, counterexample: on the header "CLOSE" padded with three spaces, with
every call served in full, `tcp_client` does not take the CLOSE branch: it
allocates a buffer (of size 0), sends the OK acknowledgement, reads and echoes
a payload of length 0 and reads the next header. -/
theorem space_padded_close_not_recognised :
    tcp_client (World.ideal [67, 76, 79, 83, 69, 32, 32, 32]) =
      some (Exit.peer_closed,
        { World.ideal [] with
          trace := [Event.recv 8 8 [67, 76, 79, 83, 69, 32, 32, 32], Event.malloc 0 true,
            Event.send [79, 75, 32, 32, 32, 32, 32, 32] 8, Event.recv 0 0 [],
            Event.send [] 0, Event.recv 8 0 []] }) := by
  decide

/-- C10, amended: a full 8-byte header moves `tcp_client` from AwaitHeader to
Closed through the CLOSE branch exactly when its first six bytes are CLOSE and
a NUL byte, the form `run_client` sends (the last two bytes are arbitrary).
The session loop then ends at once: the header read is its only action, so no
acknowledgement is sent, no buffer is allocated and no payload is read. -/
theorem close_frame_closes (w w1 : World) (hdr : List Nat)
    (hrecv : recv w 8 = (8, hdr, w1)) :
    (tcp_client_iter w = Iter.stop Exit.close w1 ↔ hdr.take 6 = str_CLOSE) ∧
    (hdr.take 6 = str_CLOSE →
      tcp_client w = some (Exit.close, w1) ∧ w1.trace = w.trace ++ [Event.recv 8 8 hdr]) ∧
    (∀ x y, (close_frame x y).take 6 = str_CLOSE) := by
  have s1 := recv_spec _ _ _ _ _ hrecv
  have hl : hdr.length = 8 := by
    have := s1.2.1
    omega
  have hmsg := server_msg_of_header hdr hl
  have h8 : ¬ ((8 : Int) < 0) := by omega
  obtain ⟨a, b, c, d, e, f, g, i, rfl⟩ := list_of_length_8 hdr hl
  have hiff := strcmp_CLOSE_iff a b c d e f g i
  have htake : List.take 6 [a, b, c, d, e, f, g, i] = str_CLOSE ↔
      a = 67 ∧ b = 76 ∧ c = 79 ∧ d = 83 ∧ e = 69 ∧ f = 0 := by
    simp [str_CLOSE]
  have hstop : strcmp str_CLOSE ([a, b, c, d, e, f, g, i] ++ [0]) = 0 →
      tcp_client_iter w = Iter.stop Exit.close w1 := by
    intro h0
    simp only [tcp_client_iter, hrecv, hmsg, tcp_client_header, if_pos h0, h8, if_false,
      OfNat.ofNat_ne_zero, lt_self_iff_false]
  refine ⟨⟨?_, fun h => hstop (hiff.2 (htake.1 h))⟩, ?_, fun x y => rfl⟩
  · intro h
    by_contra hne
    have hclose : strcmp str_CLOSE ([a, b, c, d, e, f, g, i] ++ [0]) ≠ 0 :=
      fun h0 => hne (htake.2 (hiff.1 h0))
    simp only [tcp_client_iter, hrecv, hmsg, tcp_client_header, if_neg hclose, h8, if_false,
      OfNat.ofNat_ne_zero, lt_self_iff_false] at h
    split at h
    · injection h with h1 _
      cases h1
    · split_ifs at h <;> (injection h with h1 _; cases h1)
  · intro h
    refine ⟨?_, s1.1⟩
    unfold tcp_client tcp_client_loop
    rw [hstop (hiff.2 (htake.1 h))]

/-- C10, amended, on the CLOSE frame of `run_client` with the trailing bytes
1 and 2. -/
theorem close_frame_closes_witness :
    (tcp_client_iter close_session = Iter.stop Exit.close (recv close_session 8).2.2 ↔
      (close_frame 1 2).take 6 = str_CLOSE) ∧
    ((close_frame 1 2).take 6 = str_CLOSE →
      tcp_client close_session = some (Exit.close, (recv close_session 8).2.2) ∧
      (recv close_session 8).2.2.trace
        = close_session.trace ++ [Event.recv 8 8 (close_frame 1 2)]) ∧
    (∀ x y, (close_frame x y).take 6 = str_CLOSE) :=
  close_frame_closes close_session (recv close_session 8).2.2 (close_frame 1 2) (by rfl)

/-! ## C11: short header reads -/

/-- C11: when the header read of `tcp_client` delivers fewer than 8 bytes
(a negative result, zero bytes, or 1 to 7 bytes), the pass breaks at once and
the session loop ends there: the exit is the one of the matching branch, the
bytes read are not decoded, and after the header read nothing is done but
printing the diagnostic, so no acknowledgement is sent and no buffer is
allocated. -/
theorem short_header_ends_session (w w1 : World) (r : Int) (d : List Nat)
    (hrecv : recv w 8 = (r, d, w1)) (hr : r < 8) :
    ∃ e wf, tcp_client_iter w = Iter.stop e wf ∧ tcp_client w = some (e, wf) ∧
      ((r < 0 ∧ e = Exit.recv_failed ∧ wf = w1.log (Event.stderr Diag.recv_failed)) ∨
       (r = 0 ∧ e = Exit.peer_closed ∧ wf = w1) ∨
       (0 < r ∧ e = Exit.incomplete_header ∧
         wf = w1.log (Event.stderr Diag.incomplete_header))) ∧
      sent wf.trace = sent w.trace ∧ allocated wf.trace = allocated w.trace := by
  have s1 := (recv_spec _ _ _ _ _ hrecv).1
  have hloop : ∀ e wf, tcp_client_iter w = Iter.stop e wf → tcp_client w = some (e, wf) := by
    intro e wf h
    unfold tcp_client tcp_client_loop
    rw [h]
  by_cases h0 : r < 0
  · have hi : tcp_client_iter w
        = Iter.stop Exit.recv_failed (w1.log (Event.stderr Diag.recv_failed)) := by
      simp only [tcp_client_iter, hrecv, if_pos h0]
    refine ⟨_, _, hi, hloop _ _ hi, Or.inl ⟨h0, rfl, rfl⟩, ?_, ?_⟩
    · simp [log_trace, s1, sent_append, sent]
    · simp [log_trace, s1, allocated_append, allocated]
  · by_cases hz : r = 0
    · have hi : tcp_client_iter w = Iter.stop Exit.peer_closed w1 := by
        simp only [tcp_client_iter, hrecv, if_neg h0, if_pos hz]
      refine ⟨_, _, hi, hloop _ _ hi, Or.inr (Or.inl ⟨hz, rfl, rfl⟩), ?_, ?_⟩
      · simp [s1, sent_append, sent]
      · simp [s1, allocated_append, allocated]
    · have hi : tcp_client_iter w
          = Iter.stop Exit.incomplete_header (w1.log (Event.stderr Diag.incomplete_header)) := by
        simp only [tcp_client_iter, hrecv, if_neg h0, if_neg hz, if_pos hr]
      refine ⟨_, _, hi, hloop _ _ hi, Or.inr (Or.inr ⟨by omega, rfl, rfl⟩), ?_, ?_⟩
      · simp [log_trace, s1, sent_append, sent]
      · simp [log_trace, s1, allocated_append, allocated]

/-- C11 on a header read that delivers the three bytes "128". -/
theorem short_header_ends_session_witness :
    ∃ e wf, tcp_client_iter short_header_session = Iter.stop e wf ∧
      tcp_client short_header_session = some (e, wf) ∧
      (((3 : Int) < 0 ∧ e = Exit.recv_failed ∧
          wf = (recv short_header_session 8).2.2.log (Event.stderr Diag.recv_failed)) ∨
       ((3 : Int) = 0 ∧ e = Exit.peer_closed ∧ wf = (recv short_header_session 8).2.2) ∨
       ((0 : Int) < 3 ∧ e = Exit.incomplete_header ∧
         wf = (recv short_header_session 8).2.2.log (Event.stderr Diag.incomplete_header))) ∧
      sent wf.trace = sent short_header_session.trace ∧
      allocated wf.trace = allocated short_header_session.trace :=
  short_header_ends_session short_header_session (recv short_header_session 8).2.2 3
    [49, 50, 56] (by rfl) (by decide)

/-! ## C12: the acknowledgement follows the allocation -/

/-- C12: after a full header that decodes to the length `size`, `tcp_client`
requests a buffer of that size.  If the allocation fails, its remaining
actions are the diagnostic and one send of the 8 bytes ERR and five spaces, and
the session ends (no payload read).  If the allocation succeeds, its next
action is the send of the 8 bytes OK and six spaces, before any read of the
payload. -/
theorem ack_after_alloc (w w1 w2 : World) (hdr : List Nat) (size : Int) (ok : Bool)
    (hrecv : recv w 8 = (8, hdr, w1))
    (hdec : tcp_client_header ((bufWrite (List.replicate 9 0) hdr).set 8 0) = some size)
    (hmalloc : malloc w1 (toSizeT size) = (ok, w2)) :
    (ok = false →
      ∃ r wf, tcp_client_iter w = Iter.stop Exit.malloc_failed wf ∧
        tcp_client w = some (Exit.malloc_failed, wf) ∧
        wf.trace = w.trace ++ [Event.recv 8 8 hdr, Event.malloc (toSizeT size) false,
          Event.stderr Diag.malloc_failed, Event.send [69, 82, 82, 32, 32, 32, 32, 32] r]) ∧
    (ok = true →
      ∃ r rest, (tcp_client_iter w).world.trace =
        w.trace ++ [Event.recv 8 8 hdr, Event.malloc (toSizeT size) true,
          Event.send [79, 75, 32, 32, 32, 32, 32, 32] r] ++ rest) := by
  have s1 := (recv_spec _ _ _ _ _ hrecv).1
  have s2 := (malloc_spec _ _ _ _ hmalloc).1
  have h8 : ¬ ((8 : Int) < 0) := by omega
  have herr : bufWrite ((bufWrite (List.replicate 9 0) hdr).set 8 0) str_ERR_padded
      = str_ERR_padded := server_msg_reply _ _ rfl
  have hok : bufWrite ((bufWrite (List.replicate 9 0) hdr).set 8 0) str_OK_padded
      = str_OK_padded := server_msg_reply _ _ rfl
  constructor
  · intro hf
    subst hf
    have hi : tcp_client_iter w = Iter.stop Exit.malloc_failed
        (send (w2.log (Event.stderr Diag.malloc_failed)) (str_ERR_padded.take 8)).2 := by
      simp only [tcp_client_iter, hrecv, hdec, hmalloc, herr, h8, if_false,
        OfNat.ofNat_ne_zero, lt_self_iff_false]
    refine ⟨(send (w2.log (Event.stderr Diag.malloc_failed)) (str_ERR_padded.take 8)).1, _, hi,
      ?_, ?_⟩
    · unfold tcp_client tcp_client_loop
      rw [hi]
    · simp only [send_trace, log_trace, s2, s1, List.append_assoc, List.singleton_append,
        List.cons_append, List.nil_append, str_ERR_padded, List.take_succ_cons, List.take_zero]
  · intro ht
    subst ht
    simp only [tcp_client_iter, hrecv, hdec, hmalloc, hok, h8, if_false,
      OfNat.ofNat_ne_zero, lt_self_iff_false]
    split_ifs <;>
      simp only [Iter.world, log_trace, send_trace, recv_trace, s2, s1, List.append_assoc,
        List.singleton_append, List.cons_append, List.nil_append, str_OK_padded,
        List.take_succ_cons, List.take_zero] <;>
      exact ⟨_, _, rfl⟩

/-- C12 on a request of 128 bytes whose allocation fails: ERR is sent. -/
theorem ack_after_alloc_witness :
    (false = false →
      ∃ r wf, tcp_client_iter alloc_failure_session = Iter.stop Exit.malloc_failed wf ∧
        tcp_client alloc_failure_session = some (Exit.malloc_failed, wf) ∧
        wf.trace = alloc_failure_session.trace ++
          [Event.recv 8 8 [49, 50, 56, 32, 32, 32, 32, 32], Event.malloc (toSizeT 128) false,
          Event.stderr Diag.malloc_failed, Event.send [69, 82, 82, 32, 32, 32, 32, 32] r]) ∧
    (false = true →
      ∃ r rest, (tcp_client_iter alloc_failure_session).world.trace =
        alloc_failure_session.trace ++
          [Event.recv 8 8 [49, 50, 56, 32, 32, 32, 32, 32], Event.malloc (toSizeT 128) true,
          Event.send [79, 75, 32, 32, 32, 32, 32, 32] r] ++ rest) :=
  ack_after_alloc alloc_failure_session (recv alloc_failure_session 8).2.2
    (malloc (recv alloc_failure_session 8).2.2 128).2 [49, 50, 56, 32, 32, 32, 32, 32] 128 false
    (by rfl) (by decide) (by rfl)

/-! ## C13: a short payload read -/

/-- C13, the code at the failing input: when the payload read for a request of
4 bytes delivers only 2 bytes, `tcp_client` prints "Incomplete recv" but does
not break: it echoes the 4 bytes of the buffer (the 2 bytes read and 2 zero
bytes) and goes back to reading a header. -/
theorem short_payload_echoed :
    tcp_client short_payload_session =
      some (Exit.peer_closed,
        { World.ideal [] with
          trace := [Event.recv 8 8 [52, 0, 0, 0, 0, 0, 0, 0], Event.malloc 4 true,
            Event.send [79, 75, 32, 32, 32, 32, 32, 32] 8, Event.recv 4 2 [1, 2],
            Event.stderr Diag.incomplete_recv, Event.send [1, 2, 0, 0] 4,
            Event.recv 8 0 []] }) := by
  decide

/-! ## C14: a write that accepts part of the payload -/

/-- C14, counterexample: when the write of the 4 payload bytes accepts only 2
of them, `tcp_client` does not write the remaining 2 bytes: its next action is
the read of the next header. -/
theorem short_write_not_resumed :
    tcp_client short_write_session =
      some (Exit.peer_closed,
        { World.ideal [] with
          trace := [Event.recv 8 8 [52, 0, 0, 0, 0, 0, 0, 0], Event.malloc 4 true,
            Event.send [79, 75, 32, 32, 32, 32, 32, 32] 8, Event.recv 4 4 [1, 2, 3, 4],
            Event.send [1, 2, 3, 4] 2, Event.recv 8 0 []] }) ∧
    sent [Event.recv 8 8 [52, 0, 0, 0, 0, 0, 0, 0], Event.malloc 4 true,
        Event.send [79, 75, 32, 32, 32, 32, 32, 32] 8, Event.recv 4 4 [1, 2, 3, 4],
        Event.send [1, 2, 3, 4] 2, Event.recv 8 0 []]
      = [79, 75, 32, 32, 32, 32, 32, 32, 1, 2] := by
  decide

/-- C14, amended: in the EchoPayload state `tcp_client` calls `send` once on
the N bytes of the payload.  Whatever number k of bytes (from 0 to N) that
write accepts, the pass ends there and the handler returns to AwaitHeader: the
bytes written for the payload are its first k bytes, and the remaining bytes
are not written. -/
theorem echo_single_write (w w1 w2 w3 w4 : World) (hdr payload : List Nat) (N : Nat)
    (r k : Int)
    (hhdr : recv w 8 = (8, hdr, w1))
    (hdec : tcp_client_header ((bufWrite (List.replicate 9 0) hdr).set 8 0) = some (N : Int))
    (hmalloc : malloc w1 N = (true, w2))
    (hack : send w2 (str_OK_padded.take 8) = (r, w3)) (hr : 0 ≤ r)
    (hpay : recv w3 N = ((N : Int), payload, w4))
    (hecho : (send w4 payload).1 = k) (hk : 0 ≤ k) :
    tcp_client_iter w = Iter.next (send w4 payload).2 ∧
      (send w4 payload).2.trace = w4.trace ++ [Event.send payload k] ∧
      sent (send w4 payload).2.trace = sent w3.trace ++ payload.take k.toNat := by
  have hlen : payload.length = N := by
    have := (recv_spec _ _ _ _ _ hpay).2.1
    omega
  have hrange := tcp_client_header_range _ _ hdec
  have hN : toSizeT (N : Int) = N := by
    simp only [LONG_MAX] at hrange
    unfold toSizeT
    omega
  have hbuf : bufWrite (List.replicate N 0) payload = payload := by
    rw [bufWrite_of_le _ _ (by simp [hlen])]
    simp [hlen]
  have htr := send_trace w4 payload
  rw [hecho] at htr
  have htr4 := (recv_spec _ _ _ _ _ hpay).1
  refine ⟨?_, htr, ?_⟩
  · have h8 : ¬ ((8 : Int) < 0) := by omega
    have hr' : ¬ (r < 0) := by omega
    have hk' : ¬ (k < 0) := by omega
    have hN0 : ¬ ((N : Int) < 0) := by omega
    have hok : bufWrite ((bufWrite (List.replicate 9 0) hdr).set 8 0) str_OK_padded
        = str_OK_padded := server_msg_reply _ _ rfl
    simp only [tcp_client_iter, hhdr, hdec, hN, hmalloc, hok, hack, hpay, hbuf, hecho, h8, hr',
      hN0, hk', if_false, lt_self_iff_false, OfNat.ofNat_ne_zero]
  · rw [htr, sent_append]
    simp [sent, htr4, sent_append, hk]

/-- C14, amended, on the session `short_write_session`: the write accepts 2 of
the 4 bytes. -/
theorem echo_single_write_witness :
    tcp_client_iter short_write_session
      = Iter.next (send (recv (send (malloc (recv short_write_session 8).2.2 4).2
          (str_OK_padded.take 8)).2 4).2.2 [1, 2, 3, 4]).2 ∧
      (send (recv (send (malloc (recv short_write_session 8).2.2 4).2
          (str_OK_padded.take 8)).2 4).2.2 [1, 2, 3, 4]).2.trace
        = (recv (send (malloc (recv short_write_session 8).2.2 4).2
          (str_OK_padded.take 8)).2 4).2.2.trace ++ [Event.send [1, 2, 3, 4] 2] ∧
      sent (send (recv (send (malloc (recv short_write_session 8).2.2 4).2
          (str_OK_padded.take 8)).2 4).2.2 [1, 2, 3, 4]).2.trace
        = sent (send (malloc (recv short_write_session 8).2.2 4).2
          (str_OK_padded.take 8)).2.trace ++ [1, 2, 3, 4].take (2 : Int).toNat :=
  echo_single_write short_write_session (recv short_write_session 8).2.2
    (malloc (recv short_write_session 8).2.2 4).2
    (send (malloc (recv short_write_session 8).2.2 4).2 (str_OK_padded.take 8)).2
    (recv (send (malloc (recv short_write_session 8).2.2 4).2 (str_OK_padded.take 8)).2 4).2.2
    [52, 0, 0, 0, 0, 0, 0, 0] [1, 2, 3, 4] 4 8 2 (by rfl) (by rfl) (by rfl) (by rfl)
    (by decide) (by rfl) (by rfl) (by decide)

/-! ## C15, C16: the result of `bw_test` -/

/-- Between two valid readings in non-decreasing order, the value computed by
lines 316 and 317 (`timersub`, then microseconds) is the difference of the
microsecond counts, which is not negative. -/
theorem usecs_timersub (a b : timeval) (ha : a.valid) (hb : b.valid)
    (hle : a.micros ≤ b.micros) :
    usecs (timersub b a) = b.micros - a.micros ∧ 0 ≤ usecs (timersub b a) := by
  obtain ⟨a1, a2, a3, a4⟩ := ha
  obtain ⟨b1, b2, b3, b4⟩ := hb
  simp only [timeval.micros] at hle ⊢
  have key : usecs (timersub b a) = b.tv_sec * 1000000 + b.tv_usec
      - (a.tv_sec * 1000000 + a.tv_usec) := by
    simp only [timersub]
    by_cases h : b.tv_usec - a.tv_usec < 0
    · simp only [if_pos h, usecs, toLong]
      omega
    · simp only [if_neg h, usecs, toLong]
      omega
  rw [key]
  constructor
  · rfl
  · omega

/-- The value of `bw_test` in terms of the results of its calls, made in the
order of the source: `malloc`, `send` of the header, `recv` of the
acknowledgement, the clock, `send` of the payload, the clock, `recv` of the
echo, the clock. -/
theorem bw_test_eval (w w1 w2 w3 w4 w5 w6 w7 w8 : World) (size : Nat) (ok : Bool)
    (r1 r2 r3 r4 : Int) (ack d : List Nat) (t1 t2 t3 : timeval)
    (h1 : malloc w ((size + 1) % 2 ^ 64) = (ok, w1))
    (h2 : send w1 (bw_test_header size) = (r1, w2))
    (h3 : recv w2 8 = (r2, ack, w3))
    (h4 : gettimeofday w3 = (t1, w4))
    (h5 : send w4 (List.replicate size 97) = (r3, w5))
    (h6 : gettimeofday w5 = (t2, w6))
    (h7 : recv w6 size = (r4, d, w7))
    (h8 : gettimeofday w7 = (t3, w8)) :
    (bw_test w size).1 =
      if ok = false then ⟨-1, -1⟩
      else if r1 < 0 then ⟨-1, -1⟩
      else if r2 < 8 then ⟨-1, -1⟩
      else if strcmp str_OK (bufWrite (bw_test_msg size) ack) = 0 then ⟨-1, -1⟩
      else if r3 < 0 then ⟨-1, -1⟩
      else if r4 < 0 then ⟨usecs (timersub t2 t1), -1⟩
      else if toSizeT r4 < size then ⟨usecs (timersub t2 t1), -1⟩
      else ⟨usecs (timersub t2 t1), usecs (timersub t3 t2)⟩ := by
  have hbuf : (List.replicate size 97 ++ [0]).take size = List.replicate size 97 := by
    rw [List.take_append_of_le_length (by simp)]
    simp
  unfold bw_test
  rw [h1]
  cases ok with
  | false => simp
  | true =>
    simp only [Bool.true_eq_false, if_false]
    simp only [bw_test_header] at h2
    rw [h2]
    simp only
    by_cases c1 : r1 < 0
    · simp [c1]
    · rw [if_neg c1, if_neg c1, h3]
      simp only
      by_cases c2 : r2 < 8
      · simp [c2]
      · rw [if_neg c2, if_neg c2]
        by_cases c3 : strcmp str_OK (bufWrite (bw_test_msg size) ack) = 0
        · simp [c3]
        · rw [if_neg c3, if_neg c3, h4]
          simp only
          rw [hbuf, h5]
          simp only
          rw [h6]
          simp only
          by_cases c4 : r3 < 0
          · simp [c4]
          · rw [if_neg c4, if_neg c4, h7]
            simp only
            rw [h8]
            simp only
            by_cases c5 : r4 < 0
            · simp [c5]
            · rw [if_neg c5, if_neg c5]
              by_cases c6 : toSizeT r4 < size
              · simp [c6]
              · simp [c6]

/-- C16: `bw_test` with size 0 succeeds.  When the header send takes place (the
allocation of the one-byte buffer before it has returned a buffer) and
succeeds, the peer answers with the 8 bytes OK and six spaces, the zero-length
payload send and the zero-length payload read both return 0, and the three
clock readings are valid and non-decreasing, then the pair returned holds the
two differences of the readings in microseconds, both non-negative. -/
theorem bw_test_zero_size (w w1 w2 w3 w4 w5 w6 w7 w8 : World) (r1 : Int) (d : List Nat)
    (t1 t2 t3 : timeval)
    (h1 : malloc w 1 = (true, w1))
    (h2 : send w1 (bw_test_header 0) = (r1, w2)) (hr1 : 0 ≤ r1)
    (h3 : recv w2 8 = (8, [79, 75, 32, 32, 32, 32, 32, 32], w3))
    (h4 : gettimeofday w3 = (t1, w4))
    (h5 : send w4 [] = (0, w5))
    (h6 : gettimeofday w5 = (t2, w6))
    (h7 : recv w6 0 = (0, d, w7))
    (h8 : gettimeofday w7 = (t3, w8))
    (v1 : t1.valid) (v2 : t2.valid) (v3 : t3.valid)
    (l12 : t1.micros ≤ t2.micros) (l23 : t2.micros ≤ t3.micros) :
    (bw_test w 0).1 = ⟨t2.micros - t1.micros, t3.micros - t2.micros⟩ ∧
      0 ≤ (bw_test w 0).1.f ∧ 0 ≤ (bw_test w 0).1.s := by
  have he := bw_test_eval w w1 w2 w3 w4 w5 w6 w7 w8 0 true r1 8 0 0
    [79, 75, 32, 32, 32, 32, 32, 32] d t1 t2 t3 h1 h2 h3 h4 h5 h6 h7 h8
  have hack : strcmp str_OK (bufWrite (bw_test_msg 0) [79, 75, 32, 32, 32, 32, 32, 32]) ≠ 0 := by
    decide
  have hz : ¬ (toSizeT 0 < 0) := by decide
  rw [if_neg (by simp), if_neg (by omega), if_neg (by omega), if_neg hack, if_neg (by omega),
    if_neg (by omega), if_neg hz] at he
  have u1 := usecs_timersub t1 t2 v1 v2 l12
  have u2 := usecs_timersub t2 t3 v2 v3 l23
  rw [he, u1.1, u2.1]
  refine ⟨rfl, ?_, ?_⟩
  · show 0 ≤ t2.micros - t1.micros
    omega
  · show 0 ≤ t3.micros - t2.micros
    omega

/-- C16 on the transfer `zero_transfer`: the pair is (0, 0). -/
theorem bw_test_zero_size_witness :
    (bw_test zero_transfer 0).1
        = ⟨timeval.micros ⟨7, 1⟩ - timeval.micros ⟨7, 1⟩,
           timeval.micros ⟨7, 1⟩ - timeval.micros ⟨7, 1⟩⟩ ∧
      0 ≤ (bw_test zero_transfer 0).1.f ∧ 0 ≤ (bw_test zero_transfer 0).1.s :=
  bw_test_zero_size zero_transfer (malloc zero_transfer 1).2
    (send (malloc zero_transfer 1).2 (bw_test_header 0)).2 zero_transfer_ack
    (gettimeofday zero_transfer_ack).2 (send (gettimeofday zero_transfer_ack).2 []).2
    zero_transfer_sent (recv zero_transfer_sent 0).2.2
    (gettimeofday (recv zero_transfer_sent 0).2.2).2 8 [] ⟨7, 1⟩ ⟨7, 1⟩ ⟨7, 1⟩
    (by rfl) (by rfl) (by decide) (by rfl) (by rfl) (by rfl) (by rfl) (by rfl) (by rfl)
    ⟨by decide, by decide, by decide, by decide⟩ ⟨by decide, by decide, by decide, by decide⟩
    ⟨by decide, by decide, by decide, by decide⟩ (by decide) (by decide)

/-! ## Termination of the warmup loop -/

theorem gettimeofday_inbox (w : World) : (gettimeofday w).2.inbox = w.inbox := by
  unfold gettimeofday
  split <;> rfl

/-- The world `bw_test` leaves when every step succeeds. -/
theorem bw_test_success_world (w w1 w2 w3 w4 w5 w6 w7 w8 : World) (size : Nat)
    (r1 r2 r3 r4 : Int) (ack d : List Nat) (t1 t2 t3 : timeval)
    (h1 : malloc w ((size + 1) % 2 ^ 64) = (true, w1))
    (h2 : send w1 (bw_test_header size) = (r1, w2))
    (h3 : recv w2 8 = (r2, ack, w3))
    (h4 : gettimeofday w3 = (t1, w4))
    (h5 : send w4 (List.replicate size 97) = (r3, w5))
    (h6 : gettimeofday w5 = (t2, w6))
    (h7 : recv w6 size = (r4, d, w7))
    (h8 : gettimeofday w7 = (t3, w8))
    (c1 : ¬ r1 < 0) (c2 : ¬ r2 < 8)
    (c3 : ¬ strcmp str_OK (bufWrite (bw_test_msg size) ack) = 0)
    (c4 : ¬ r3 < 0) (c5 : ¬ r4 < 0) (c6 : ¬ toSizeT r4 < size) :
    (bw_test w size).2 = w8 := by
  have hbuf : (List.replicate size 97 ++ [0]).take size = List.replicate size 97 := by
    rw [List.take_append_of_le_length (by simp)]
    simp
  unfold bw_test
  rw [h1]
  simp only [bw_test_header] at h2
  simp only
  rw [h2]
  simp only
  rw [if_neg c1, h3]
  simp only
  rw [if_neg c2, if_neg c3, h4]
  simp only
  rw [hbuf, h5]
  simp only
  rw [h6]
  simp only
  rw [if_neg c4, h7]
  simp only
  rw [h8]
  simp only
  rw [if_neg c5, if_neg c6]

/-- A call of `bw_test` that does not return the failure sentinel has taken
the 8 bytes of the acknowledgement from the inbox. -/
theorem bw_test_success_inbox (w : World) (size : Nat)
    (h : ¬ ((bw_test w size).1.f < 0 ∨ (bw_test w size).1.s < 0)) :
    (bw_test w size).2.inbox.length + 8 ≤ w.inbox.length := by
  rcases h1 : malloc w ((size + 1) % 2 ^ 64) with ⟨ok, w1⟩
  rcases h2 : send w1 (bw_test_header size) with ⟨r1, w2⟩
  rcases h3 : recv w2 8 with ⟨r2, ack, w3⟩
  rcases h4 : gettimeofday w3 with ⟨t1, w4⟩
  rcases h5 : send w4 (List.replicate size 97) with ⟨r3, w5⟩
  rcases h6 : gettimeofday w5 with ⟨t2, w6⟩
  rcases h7 : recv w6 size with ⟨r4, d, w7⟩
  rcases h8 : gettimeofday w7 with ⟨t3, w8⟩
  have he := bw_test_eval w w1 w2 w3 w4 w5 w6 w7 w8 size ok r1 r2 r3 r4 ack d t1 t2 t3
    h1 h2 h3 h4 h5 h6 h7 h8
  have hs : ¬ ((bw_test w size).1.s < 0) := fun hc => h (Or.inr hc)
  rw [he] at hs
  split_ifs at hs with c0 c1 c2 c3 c4 c5 c6
  · exact absurd (by decide) hs
  · exact absurd (by decide) hs
  · exact absurd (by decide) hs
  · exact absurd (by decide) hs
  · exact absurd (by decide) hs
  · exact absurd (show (-1 : Int) < 0 by decide) hs
  · exact absurd (show (-1 : Int) < 0 by decide) hs
  · have hok : ok = true := by
      cases ok
      · exact absurd rfl c0
      · rfl
    subst hok
    rw [bw_test_success_world w w1 w2 w3 w4 w5 w6 w7 w8 size r1 r2 r3 r4 ack d t1 t2 t3
      h1 h2 h3 h4 h5 h6 h7 h8 c1 c2 c3 c4 c5 c6]
    have m1 := (malloc_spec _ _ _ _ h1).2
    have s2 := (send_spec _ _ _ _ h2).2.2.2
    have s3 := recv_spec _ _ _ _ _ h3
    have g4 := gettimeofday_inbox w3
    have s5 := (send_spec _ _ _ _ h5).2.2.2
    have g6 := gettimeofday_inbox w5
    have s7 := recv_spec _ _ _ _ _ h7
    have g8 := gettimeofday_inbox w7
    rw [h4] at g4
    rw [h6] at g6
    rw [h8] at g8
    simp only at g4 g6 g8
    rw [g8]
    have e7 := s7.2.2.2.1
    rw [g6, s5, g4] at e7
    have e3 := s3.2.2.2.1
    rw [s2, m1] at e3
    have := s3.2.1
    omega

theorem warmup_loop_total (t1 : timeval) (seconds : Int) (fuel : Nat) :
    ∀ w : World, w.inbox.length < fuel → ∃ wf, warmup_loop fuel w t1 seconds = some wf := by
  induction fuel with
  | zero => intro w h; omega
  | succ fuel ih =>
    intro w h
    unfold warmup_loop
    rcases hg : gettimeofday w with ⟨t2, w1⟩
    have g := gettimeofday_inbox w
    rw [hg] at g
    simp only at g ⊢
    split_ifs with c1 c2
    · exact ⟨_, rfl⟩
    · exact ⟨_, rfl⟩
    · have := bw_test_success_inbox w1 10240 c2
      rw [g] at this
      exact ih _ (by omega)

/-- The function `warmup` always returns: the fuel of the model is never used
up. -/
theorem warmup_total (w : World) (seconds : Int) : ∃ wf, warmup w seconds = some wf := by
  unfold warmup
  exact warmup_loop_total _ _ _ _ (Nat.lt_succ_self _)

/-! ## C17: a failed transfer in the warmup -/

set_option maxRecDepth 1000000 in
/-- C17, the code at the failing input.  With a warmup of 1 second and a peer
that has closed, the transfer of the warmup fails, `warmup` prints its
diagnostic and returns, and `run_client` issues a further transfer on the same
connection (the header "128" is sent).  In the run `failed_warmup_run`, where
only the transfer of the warmup fails, `run_client` goes on to measure the
series of size 128 and prints its line of statistics. -/
theorem warmup_failure_not_fatal :
    run_client (World.ideal []) 1 0 0 =
      (RunResult.exit_failure, [],
        { World.ideal [] with
          trace := [Event.malloc 10241 true, Event.send [49, 48, 50, 52, 48, 0, 0, 0] 8,
            Event.recv 8 0 [], Event.stderr Diag.recv_failed, Event.stderr Diag.warmup_failed,
            Event.malloc 129 true, Event.send [49, 50, 56, 0, 0, 0, 0, 0] 8,
            Event.recv 8 0 [], Event.stderr Diag.recv_failed, Event.stderr Diag.error] }) ∧
    (run_client failed_warmup_run 1 0 0).2.2.trace.take 5 =
      [Event.malloc 10241 true, Event.send [49, 48, 50, 52, 48, 0, 0, 0] 8,
        Event.recv 8 (-1) [], Event.stderr Diag.recv_failed, Event.stderr Diag.warmup_failed] ∧
    (run_client failed_warmup_run 1 0 0).2.1 = [(128, ⟨15, 15, 15⟩)] := by
  refine ⟨by decide, by decide, by decide⟩

/-! ## C18: the throughput of a size -/

/-- C18, the code at the failing input: for the size 128 and a least sample of
100 microseconds `run_client` computes the throughput 1000000 bytes per second
(the integer quotient 128 / 100 = 1, then scaled), whereas 128 / 100 bytes per
microsecond scaled by 10^6 is 1280000 bytes per second; for a least sample of
200 microseconds it computes 0. -/
theorem speed_truncated :
    speed 128 100 = some 1000000 ∧ ((128 : ℚ) / 100 * 10 ^ 6 = 1280000) ∧
    speed 128 200 = some 0 ∧ ((128 : ℚ) / 200 * 10 ^ 6 = 640000) := by
  refine ⟨by decide, by norm_num, by decide, by norm_num⟩

/-! ## C19: the end of the warmup -/

/-- C19, the code at the failing input: with a budget of 1 second, a pass of
the loop of `warmup` that finds 1.5 seconds elapsed does not leave the loop (the
test of line 345 adds `tv_usec / 1000000`, which is 0, to the whole seconds):
it calls `bw_test`, which allocates its buffer and sends the header "10240".
The test fires only from 2 whole seconds on. -/
theorem warmup_overruns_budget :
    warmup_expired (timersub ⟨1, 500000⟩ ⟨0, 0⟩) 1 = false ∧
    warmup_expired (timersub ⟨1, 999999⟩ ⟨0, 0⟩) 1 = false ∧
    warmup_expired (timersub ⟨2, 0⟩ ⟨0, 0⟩) 1 = true ∧
    warmup late_warmup 1 =
      some { World.ideal [] with
        now := ⟨1, 500000⟩
        trace := [Event.malloc 10241 true, Event.send [49, 48, 50, 52, 48, 0, 0, 0] 8,
          Event.recv 8 0 [], Event.stderr Diag.recv_failed,
          Event.stderr Diag.warmup_failed] } := by
  refine ⟨by decide, by decide, by decide, by decide⟩

/-! ## C20: the shared byte counter -/

/-- C20, the code at the failing input: two sessions add 5 and 7 to the counter
0 with the plain statement `bytes_tcp += len`.  When both read the counter
before either writes it, both statements complete and the counter ends at 7,
not at 12: the update of the first session is lost.  Run one after the other
they give 12. -/
theorem counter_lost_update :
    interleave [false, true, false, true] ⟨5, none, false⟩ ⟨7, none, false⟩ 0
      = (7, ⟨5, some 0, true⟩, ⟨7, some 0, true⟩) ∧
    interleave [false, false, true, true] ⟨5, none, false⟩ ⟨7, none, false⟩ 0
      = (12, ⟨5, some 0, true⟩, ⟨7, some 5, true⟩) := by
  decide

/-! ## The measured series aborts on a failed transfer -/

/-- A failed transfer in the inner loop of `run_client` ends the loop at once
with the `exit` of line 402: the only action after the transfer is the
diagnostic. -/
theorem run_series_failure (k : Nat) (w : World) (size : Nat) (tests : List Int)
    (h : (bw_test w size).1.f < 0 ∨ (bw_test w size).1.s < 0) :
    run_series (k + 1) w size tests
      = (none, (bw_test w size).2.log (Event.stderr Diag.error)) := by
  unfold run_series
  simp only [if_pos h]

/-- When the inner loop ends with the `exit` of line 402, `run_client`'s outer
loop ends there too: no line of statistics is added and the world is the one
the inner loop left. -/
theorem run_tests_failure (size : Int) (rest : List Int) (w wf : World)
    (rows : List (Int × stats_l)) (max_speed : Int)
    (h : run_series SERIES w (toSizeT size) [] = (none, wf)) :
    run_tests (size :: rest) w rows max_speed = (RunResult.exit_failure, rows, wf) := by
  unfold run_tests
  rw [h]

/-- No pair carrying the failure sentinel contributes a sample to the series:
when the inner loop of `run_client` ends without the `exit` of line 402, each
of its `k` new samples is `(l.f + l.s) / 2` for a pair `l` with both components
non-negative. -/
theorem run_series_samples : ∀ (k : Nat) (w : World) (size : Nat) (tests ts : List Int)
    (wf : World), run_series k w size tests = (some ts, wf) →
    ∃ new, ts = tests ++ new ∧ new.length = k ∧
      ∀ v ∈ new, ∃ l : pair_l, 0 ≤ l.f ∧ 0 ≤ l.s ∧ v = Int.tdiv (toLong (l.f + l.s)) 2 := by
  intro k
  induction k with
  | zero =>
    intro w size tests ts wf h
    simp only [run_series, Prod.mk.injEq, Option.some.injEq] at h
    exact ⟨[], by simp [h.1], rfl, by simp⟩
  | succ k ih =>
    intro w size tests ts wf h
    unfold run_series at h
    simp only at h
    split_ifs at h with hfail
    · simp at h
    · obtain ⟨new, h1, h2, h3⟩ := ih _ _ _ _ _ h
      refine ⟨Int.tdiv (toLong ((bw_test w size).1.f + (bw_test w size).1.s)) 2 :: new,
        by simp [h1], by simp [h2], ?_⟩
      intro v hv
      rcases List.mem_cons.1 hv with rfl | hv
      · exact ⟨(bw_test w size).1, by omega, by omega, rfl⟩
      · exact h3 v hv

/-! ## C21: the latency aggregators skip failed pings -/

theorem a_max_loop_spec (arr : List Int) : ∀ (k i : Nat) (ret : Int), i + k = arr.length →
    ∃ r, a_max_loop arr k i ret = some r ∧ ret ≤ r ∧
      (∀ v ∈ arr.drop i, 0 ≤ v → v ≤ r) ∧ (r = ret ∨ (r ∈ arr.drop i ∧ 0 ≤ r)) := by
  intro k
  induction k with
  | zero =>
    intro i ret hik
    have hd : arr.drop i = [] := List.drop_of_length_le (by omega)
    exact ⟨ret, rfl, le_refl _, by simp [hd], Or.inl rfl⟩
  | succ k ih =>
    intro i ret hik
    have hi : i < arr.length := by omega
    have hd : arr.drop i = arr[i] :: arr.drop (i + 1) := List.drop_eq_getElem_cons hi
    rw [hd]
    unfold a_max_loop
    rw [List.getElem?_eq_getElem hi]
    simp only
    by_cases hneg : arr[i] < 0
    · rw [if_pos hneg]
      obtain ⟨r, hr, h1, h2, h3⟩ := ih (i + 1) ret (by omega)
      refine ⟨r, hr, h1, ?_, ?_⟩
      · intro v hv h0
        rcases List.mem_cons.1 hv with rfl | hv
        · omega
        · exact h2 v hv h0
      · rcases h3 with h3 | ⟨h3, h4⟩
        · exact Or.inl h3
        · exact Or.inr ⟨List.mem_cons_of_mem _ h3, h4⟩
    · rw [if_neg hneg]
      obtain ⟨r, hr, h1, h2, h3⟩ := ih (i + 1) (if arr[i] > ret then arr[i] else ret) (by omega)
      refine ⟨r, hr, ?_, ?_, ?_⟩
      · split_ifs at h1 <;> omega
      · intro v hv h0
        rcases List.mem_cons.1 hv with rfl | hv
        · split_ifs at h1 <;> omega
        · exact h2 v hv h0
      · rcases h3 with h3 | ⟨h3, h4⟩
        · split_ifs at h3
          · right
            rw [h3]
            exact ⟨List.mem_cons_self _ _, by omega⟩
          · exact Or.inl h3
        · exact Or.inr ⟨List.mem_cons_of_mem _ h3, h4⟩

theorem a_min_loop_spec (arr : List Int) : ∀ (k i : Nat) (ret : Int), i + k = arr.length →
    ∃ r, a_min_loop arr k i ret = some r ∧ r ≤ ret ∧
      (∀ v ∈ arr.drop i, 0 ≤ v → r ≤ v) ∧ (r = ret ∨ (r ∈ arr.drop i ∧ 0 ≤ r)) := by
  intro k
  induction k with
  | zero =>
    intro i ret hik
    have hd : arr.drop i = [] := List.drop_of_length_le (by omega)
    exact ⟨ret, rfl, le_refl _, by simp [hd], Or.inl rfl⟩
  | succ k ih =>
    intro i ret hik
    have hi : i < arr.length := by omega
    have hd : arr.drop i = arr[i] :: arr.drop (i + 1) := List.drop_eq_getElem_cons hi
    rw [hd]
    unfold a_min_loop
    rw [List.getElem?_eq_getElem hi]
    simp only
    by_cases hneg : arr[i] < 0
    · rw [if_pos hneg]
      obtain ⟨r, hr, h1, h2, h3⟩ := ih (i + 1) ret (by omega)
      refine ⟨r, hr, h1, ?_, ?_⟩
      · intro v hv h0
        rcases List.mem_cons.1 hv with rfl | hv
        · omega
        · exact h2 v hv h0
      · rcases h3 with h3 | ⟨h3, h4⟩
        · exact Or.inl h3
        · exact Or.inr ⟨List.mem_cons_of_mem _ h3, h4⟩
    · rw [if_neg hneg]
      obtain ⟨r, hr, h1, h2, h3⟩ := ih (i + 1) (if arr[i] < ret then arr[i] else ret) (by omega)
      refine ⟨r, hr, ?_, ?_, ?_⟩
      · split_ifs at h1 <;> omega
      · intro v hv h0
        rcases List.mem_cons.1 hv with rfl | hv
        · split_ifs at h1 <;> omega
        · exact h2 v hv h0
      · rcases h3 with h3 | ⟨h3, h4⟩
        · split_ifs at h3
          · right
            rw [h3]
            exact ⟨List.mem_cons_self _ _, by omega⟩
          · exact Or.inl h3
        · exact Or.inr ⟨List.mem_cons_of_mem _ h3, h4⟩

/-- C21: for every series of n >= 1 samples that contains a non-negative
sample, `a_max` returns the greatest non-negative sample and `a_min` the least
non-negative sample: both results are non-negative elements of the series, so a
failed ping (a negative sample) is never returned, wherever it stands in the
series, the first position included. -/
theorem latency_aggregators_skip_failed (arr : List Int) (hne : arr ≠ [])
    (hvalid : ∃ v ∈ arr, 0 ≤ v) :
    ∃ M m, a_max arr arr.length = some M ∧ a_min arr arr.length = some m ∧
      0 ≤ M ∧ M ∈ arr ∧ (∀ v ∈ arr, 0 ≤ v → v ≤ M) ∧
      0 ≤ m ∧ m ∈ arr ∧ (∀ v ∈ arr, 0 ≤ v → m ≤ v) := by
  obtain ⟨v0, hv0, h0⟩ := hvalid
  cases arr with
  | nil => exact absurd rfl hne
  | cons a0 tl =>
    obtain ⟨M, hM, h1, h2, h3⟩ := a_max_loop_spec (a0 :: tl) (a0 :: tl).length 0 a0 (by simp)
    simp only [List.drop_zero] at h2 h3
    have hmax : a_max (a0 :: tl) (a0 :: tl).length = some M := by
      unfold a_max
      simp only [List.getElem?_cons_zero]
      exact hM
    have hM0 : 0 ≤ M := le_trans h0 (h2 v0 hv0 h0)
    have hMmem : M ∈ a0 :: tl := by
      rcases h3 with h3 | ⟨h3, _⟩
      · rw [h3]
        exact List.mem_cons_self _ _
      · exact h3
    obtain ⟨m, hm, g1, g2, g3⟩ := a_min_loop_spec (a0 :: tl) (a0 :: tl).length 0 M (by simp)
    simp only [List.drop_zero] at g2 g3
    have hmin : a_min (a0 :: tl) (a0 :: tl).length = some m := by
      unfold a_min
      rw [hmax]
      exact hm
    refine ⟨M, m, hmax, hmin, hM0, hMmem, h2, ?_, ?_, g2⟩
    · rcases g3 with g3 | ⟨_, g4⟩
      · omega
      · exact g4
    · rcases g3 with g3 | ⟨g3, _⟩
      · rw [g3]
        exact hMmem
      · exact g3

/-- C21 on the series -1, 7, 3, -1 whose first ping failed: the greatest is 7
and the least is 3. -/
theorem latency_aggregators_skip_failed_witness :
    (a_max [-1, 7, 3, -1] 4 = some 7 ∧ a_min [-1, 7, 3, -1] 4 = some 3) ∧
    ∃ M m, a_max [-1, 7, 3, -1] [-1, 7, 3, -1].length = some M ∧
      a_min [-1, 7, 3, -1] [-1, 7, 3, -1].length = some m ∧
      0 ≤ M ∧ M ∈ [-1, 7, 3, -1] ∧ (∀ v ∈ [-1, 7, 3, -1], 0 ≤ v → v ≤ M) ∧
      0 ≤ m ∧ m ∈ [-1, 7, 3, -1] ∧ (∀ v ∈ [-1, 7, 3, -1], 0 ≤ v → m ≤ v) :=
  ⟨by decide, latency_aggregators_skip_failed [-1, 7, 3, -1] (by decide) ⟨7, by decide, by decide⟩⟩

/-! ## C22: the divisor of the throughput -/

set_option maxRecDepth 1000000 in
/-- C22, the code at the failing input: in the run `instant_run` the 10
transfers of size 128 succeed with send time 0 and receive time 0, every sample
is (0 + 0) / 2 = 0, `stats` returns min = 0, the line of statistics is printed,
and the division `size / st.min` of line 409 has the divisor 0: nothing guards
it.  The same holds for one transfer when its two times add up to 1. -/
theorem throughput_divides_by_zero :
    (run_client instant_run 0 0 0).1 = RunResult.division_by_zero ∧
    (run_client instant_run 0 0 0).2.1 = [(128, ⟨0, 0, 0⟩)] ∧
    speed 128 0 = none ∧
    Int.tdiv (toLong (1 + 0)) 2 = 0 := by
  refine ⟨by decide, by decide, by decide, by decide⟩

/-! ## C23: the sizes the driver passes to `bw_test` -/

/-- C23: the size ladder of `run_client` has 21 entries; each of them, and the
size 10240 of `warmup`, is non-negative and below 100000000, is passed to
`bw_test` unchanged by the conversion to `size_t`, and gives a header of 8
bytes that `tcp_client` decodes to the same size. -/
theorem driver_sizes_fit_header :
    bytes.length = 21 ∧
    ∀ size ∈ (10240 : Int) :: bytes,
      0 ≤ size ∧ size < 100000000 ∧ (toSizeT size : Int) = size ∧
      (bw_test_header (toSizeT size)).length = 8 ∧
      tcp_client_header
        ((bufWrite (List.replicate 9 0) (bw_test_header (toSizeT size))).set 8 0) = some size := by
  decide

/-! ## C24: the order of min, avg and max -/

theorem sum_ge_of_le (m : Int) : ∀ l : List Int, (∀ v ∈ l, m ≤ v) → m * (l.length : Int) ≤ l.sum
  | [], _ => by simp
  | a :: l, h => by
    have ha : m ≤ a := h a (List.mem_cons_self _ _)
    have ih := sum_ge_of_le m l (fun v hv => h v (List.mem_cons_of_mem _ hv))
    simp only [List.length_cons, List.sum_cons]
    push_cast
    linarith

theorem sum_le_of_le (M : Int) : ∀ l : List Int, (∀ v ∈ l, v ≤ M) → l.sum ≤ M * (l.length : Int)
  | [], _ => by simp
  | a :: l, h => by
    have ha : a ≤ M := h a (List.mem_cons_self _ _)
    have ih := sum_le_of_le M l (fun v hv => h v (List.mem_cons_of_mem _ hv))
    simp only [List.length_cons, List.sum_cons]
    push_cast
    linarith

/-- On a non-empty series of non-negative samples whose sum fits in a long, the
avg of `stats` is the sum divided by the count, truncated toward zero. -/
theorem stats_avg_value (arr : List Int) (hne : arr ≠ []) (hpos : ∀ v ∈ arr, 0 ≤ v)
    (hsum : arr.sum ≤ LONG_MAX) (r : stats_l) (hr : stats arr arr.length = some r) :
    r.avg = Int.tdiv arr.sum arr.length := by
  cases arr with
  | nil => exact absurd rfl hne
  | cons a0 tl =>
    have hs0 : 0 ≤ (a0 :: tl).sum := List.sum_nonneg hpos
    unfold stats at hr
    rw [if_neg (by simp)] at hr
    simp only [List.getElem?_cons_zero] at hr
    split at hr
    · exact absurd hr (by simp)
    · rename_i r0 hr0
      rw [if_neg (by simp)] at hr
      simp only [Option.some.injEq] at hr
      subst hr
      have h7 := stats_loop_avg (a0 :: tl) (a0 :: tl).length 0 ⟨0, a0, a0⟩ r0 (by simp)
        (by simpa using hpos) (le_refl _) (by simpa using hsum) hr0
      simp only [List.drop_zero, zero_add] at h7
      simp only
      rw [h7]
      exact stats_avg_div _ _ hs0 hsum

/-- C24: for every non-empty series of non-negative samples whose sum fits in a
long, `stats` returns a result with min <= avg <= max, whose min and max are
both elements of the series. -/
theorem stats_ordered (arr : List Int) (hne : arr ≠ []) (hpos : ∀ v ∈ arr, 0 ≤ v)
    (hsum : arr.sum ≤ LONG_MAX) :
    ∃ r, stats arr arr.length = some r ∧
      r.min ≤ r.avg ∧ r.avg ≤ r.max ∧ r.min ∈ arr ∧ r.max ∈ arr := by
  obtain ⟨r, hr, h1, h2, h3, h4⟩ := stats_minmax arr hne
  have havg := stats_avg_value arr hne hpos hsum r hr
  have hs0 : 0 ≤ arr.sum := List.sum_nonneg hpos
  have hn : (0 : Int) < (arr.length : Int) := by
    have : 0 < arr.length := List.length_pos.2 hne
    exact_mod_cast this
  rw [Int.tdiv_eq_ediv hs0 (le_of_lt hn)] at havg
  refine ⟨r, hr, ?_, ?_, h1, h3⟩
  · rw [havg]
    exact Int.le_ediv_of_mul_le hn (sum_ge_of_le r.min arr h2)
  · rw [havg]
    exact Int.ediv_le_of_le_mul hn (sum_le_of_le r.max arr h4)

/-- C24 on the series 5, 1, 9, 3: 1 <= 4 <= 9. -/
theorem stats_ordered_witness :
    ∃ r, stats [5, 1, 9, 3] [5, 1, 9, 3].length = some r ∧
      r.min ≤ r.avg ∧ r.avg ≤ r.max ∧ r.min ∈ [5, 1, 9, 3] ∧ r.max ∈ [5, 1, 9, 3] :=
  stats_ordered [5, 1, 9, 3] (by decide) (by decide) (by decide)

end PingPong
